import Mathlib

/-!
Verification development for the ARIA specification parser
(`scripts/parse-aria-spec.js`).  The script's pure logic is shallowly
embedded: parsed documents are modelled as the data the DOM selectors
would return, JavaScript objects as insertion-ordered association lists,
and the recursive inheritance resolver as a fuel-indexed function (the
fuel plays the role of the call stack; with fuel larger than the number
of table keys not yet visited the result is fuel-independent, which is
the termination argument of the original recursion).
-/

/-- The maximal runs of characters not satisfying `pred` (the pieces a
split on `pred`-runs produces, empties dropped).  All text utilities are
written over `List Char` by structural recursion so that every value in
this development reduces. -/
def wordsByAux (pred : Char → Bool) : List Char → List Char → List (List Char)
  | [], cur => if cur.isEmpty then [] else [cur.reverse]
  | c :: rest, cur =>
    if pred c then
      if cur.isEmpty then wordsByAux pred rest []
      else cur.reverse :: wordsByAux pred rest []
    else wordsByAux pred rest (c :: cur)

/-- Join character chunks with single spaces. -/
def joinSpace : List (List Char) → List Char
  | [] => []
  | [w] => w
  | w :: ws => w ++ ' ' :: joinSpace ws

/-- Embeds `cleanText` (parse-aria-spec.js lines 21-27): collapse runs of
whitespace to single spaces and trim.  Whitespace is
`Char.isWhitespace`. -/
def cleanText (s : String) : String :=
  String.mk (joinSpace (wordsByAux Char.isWhitespace s.data []))

/-- Embeds JavaScript `String.prototype.toLowerCase` as used by the parser. -/
def lowerStr (s : String) : String :=
  String.mk (s.data.map Char.toLower)

/-- Embeds `String.prototype.trim`. -/
def trimChars (l : List Char) : List Char :=
  ((l.dropWhile Char.isWhitespace).reverse.dropWhile Char.isWhitespace).reverse

/-- Embeds `String.prototype.split` with a single-character separator
(keeping empty pieces, as JavaScript does). -/
def splitOnCharAux (sep : Char) : List Char → List Char → List (List Char)
  | [], cur => [cur.reverse]
  | c :: rest, cur =>
    if c == sep then cur.reverse :: splitOnCharAux sep rest []
    else splitOnCharAux sep rest (c :: cur)

def splitOnChar (sep : Char) (l : List Char) : List (List Char) :=
  splitOnCharAux sep l []

/-- JavaScript code-unit string comparison, as `Array.prototype.sort`
uses. -/
def charListLe : List Char → List Char → Bool
  | [], _ => true
  | _ :: _, [] => false
  | a :: as, b :: bs => if a == b then charListLe as bs else decide (a < b)

def strLeJ (a b : String) : Bool :=
  charListLe a.data b.data

/-- Character-list infix test used to embed `String.prototype.includes`. -/
def listHasInfix (pat : List Char) : List Char → Bool
  | [] => pat.isEmpty
  | c :: rest => pat.isPrefixOf (c :: rest) || listHasInfix pat rest

/-- Embeds `s.includes(pat)` (case-sensitive substring containment). -/
def strIncludes (s pat : String) : Bool :=
  listHasInfix pat.data s.data

/-- Embeds `value.split(/[,\s]+/).map(s => s.trim()).filter(Boolean)`
(the `name from` row of a role characteristics table): splitting on runs
of commas/whitespace, trimming and dropping empties leaves exactly the
maximal separator-free runs. -/
def splitTokens (s : String) : List String :=
  (wordsByAux (fun c => c == ',' || c.isWhitespace) s.data []).map String.mk

/-- Insert a string into an already sorted list (≤ on strings mirrors the
code-unit comparison of JavaScript `Array.prototype.sort`). -/
def insortStr (x : String) : List String → List String
  | [] => [x]
  | y :: ys => if strLeJ x y then x :: y :: ys else y :: insortStr x ys

/-- Embeds `Array.prototype.sort()` on the string arrays the script sorts. -/
def sortStrings (l : List String) : List String :=
  l.foldr insortStr []

/-- Embeds `obj[key] = v` on a JavaScript object modelled as an
insertion-ordered association list: replace in place if the key exists,
otherwise append. -/
def insertAssoc {α : Type} (m : List (String × α)) (k : String) (v : α) :
    List (String × α) :=
  if m.any (fun p => p.1 == k) then
    m.map (fun p => if p.1 == k then (k, v) else p)
  else m ++ [(k, v)]

/-- Embeds `obj[key].field = ...` (in-place update of an existing entry). -/
def updateAssoc {α : Type} (m : List (String × α)) (k : String) (f : α → α) :
    List (String × α) :=
  m.map (fun p => if p.1 == k then (p.1, f p.2) else p)

/-!  ## The structured inheritance table (`roleInfo.js`) and its resolver  -/

/-- An entry of a `localprops`/`allprops` list in the structured `roleInfo`
table.  The script reads only `.name` (for de-duplication) and otherwise
copies entries whole; `required` stands for the rest of the record so that
"kept unchanged, never merged" is observable. -/
structure PropEntry where
  name : String
  required : Bool
deriving DecidableEq, Repr

/-- A value of the `roleInfo` table.  `Option` captures JavaScript
presence/absence: an absent field is `none` (and is falsy in the guards
`role.allprops ? ... : ...`, `!role.allprops && role.parentRoles`), while
a present (even empty) array is `some` (arrays are always truthy). -/
structure RoleEntry where
  parentRoles : Option (List String) := none
  localprops : Option (List PropEntry) := none
  allprops : Option (List PropEntry) := none
deriving DecidableEq, Repr

/-- The `roleInfo` object: role name to entry, in insertion order. -/
abbrev RoleInfoTable := List (String × RoleEntry)

/-- `props.find(p => p.name === n)` viewed as a boolean membership test. -/
def hasName (props : List PropEntry) (n : String) : Bool :=
  props.any (fun p => p.name == n)

/-- Embeds the inner loop of `buildAllProps` (lines 217-221): push each
parent property whose name is not already present. -/
def mergeProps (props : List PropEntry) : List PropEntry → List PropEntry
  | [] => props
  | p :: rest =>
    if hasName props p.name then mergeProps props rest
    else mergeProps (props ++ [p]) rest

/-- Embeds `buildAllProps(roleName, roleInfo, visited)` (lines 202-226).
The JavaScript `visited` is a `Set` mutated in place and shared down the
recursion, so it is threaded through explicitly; the extra fuel argument
bounds the recursion depth (the original terminates because every level
that recurses adds a fresh table key to `visited`). -/
def buildAllPropsFuel (t : RoleInfoTable) :
    Nat → String → List String → List PropEntry × List String
  | 0, _, visited => ([], visited)
  | f + 1, roleName, visited =>
    if visited.contains roleName then ([], visited)
    else
      let visited1 := roleName :: visited
      match t.lookup roleName with
      | none => ([], visited1)
      | some role =>
        match role.allprops with
        | some ap => (ap, visited1)
        | none =>
          (role.parentRoles.getD []).foldl
            (fun acc p =>
              let r := buildAllPropsFuel t f p acc.2
              (mergeProps acc.1 r.1, r.2))
            (role.localprops.getD [], visited1)

/-- The `for (const parentName of role.parentRoles)` loop of
`buildAllProps`, named so that it can be reasoned about; definitionally
equal to the fold inside `buildAllPropsFuel`. -/
def buildParentsFuel (t : RoleInfoTable) (f : Nat) (parents : List String)
    (props : List PropEntry) (visited : List String) :
    List PropEntry × List String :=
  parents.foldl
    (fun acc p =>
      let r := buildAllPropsFuel t f p acc.2
      (mergeProps acc.1 r.1, r.2))
    (props, visited)

/-- Top-level `buildAllProps(roleName, roleInfo)` (default `visited = new
Set()`); fuel `t.length + 1` is more than the number of table keys, hence
sufficient. -/
def buildAllProps (t : RoleInfoTable) (roleName : String) : List PropEntry :=
  (buildAllPropsFuel t (t.length + 1) roleName []).1

/-- Keys of the table not yet visited; the termination measure of the
original recursion. -/
def freshCount (t : RoleInfoTable) (visited : List String) : Nat :=
  ((t.map Prod.fst).filter (fun k => !visited.contains k)).length

/-- `a` resolves through `b`: the non-allprops entry of `a` declares `b`
as a parent.  This is the edge relation of the graph the resolver walks. -/
def ParentEdge (t : RoleInfoTable) (a b : String) : Prop :=
  ∃ e, t.lookup a = some e ∧ e.allprops = none ∧ b ∈ e.parentRoles.getD []

/-- The property names a single visited role contributes: its `allprops`
if present, otherwise its `localprops`. -/
def ContribHas (t : RoleInfoTable) (k : String) (n : String) : Prop :=
  ∃ e, t.lookup k = some e ∧ hasName (e.allprops.getD (e.localprops.getD [])) n = true

/-- Names-only inclusion between property lists. -/
def namesSubset (a b : List PropEntry) : Bool :=
  a.all (fun p => hasName b p.name)

/-- No two entries share a property name. -/
def namesNodupB : List PropEntry → Bool
  | [] => true
  | p :: rest => !hasName rest p.name && namesNodupB rest

/-- Well-formedness of a `roleInfo` table: every entry's own property
lists are free of duplicate names (true of the real generated table,
where each role's local list never repeats an attribute). -/
def wfTable (t : RoleInfoTable) : Bool :=
  t.all (fun kv =>
    namesNodupB (kv.2.localprops.getD []) &&
    (match kv.2.allprops with
     | some ap => namesNodupB ap
     | none => true))

/-- The raw pre-order concatenation of contributions: the same traversal
as `buildAllPropsFuel` but appending parent results without the
name-based de-duplication.  Used to state the tie-break/first-wins
policy: the resolver returns exactly the name-deduplication of this
pre-order sequence. -/
def buildRawFuel (t : RoleInfoTable) :
    Nat → String → List String → List PropEntry × List String
  | 0, _, visited => ([], visited)
  | f + 1, roleName, visited =>
    if visited.contains roleName then ([], visited)
    else
      let visited1 := roleName :: visited
      match t.lookup roleName with
      | none => ([], visited1)
      | some role =>
        match role.allprops with
        | some ap => (ap, visited1)
        | none =>
          (role.parentRoles.getD []).foldl
            (fun acc p =>
              let r := buildRawFuel t f p acc.2
              (acc.1 ++ r.1, r.2))
            (role.localprops.getD [], visited1)

/-- Parent loop of the raw traversal. -/
def buildRawParentsFuel (t : RoleInfoTable) (f : Nat) (parents : List String)
    (props : List PropEntry) (visited : List String) :
    List PropEntry × List String :=
  parents.foldl
    (fun acc p =>
      let r := buildRawFuel t f p acc.2
      (acc.1 ++ r.1, r.2))
    (props, visited)

/-- Top-level raw pre-order sequence for a role. -/
def buildRaw (t : RoleInfoTable) (roleName : String) : List PropEntry :=
  (buildRawFuel t (t.length + 1) roleName []).1

/-- Keep the first entry of each property name, drop later ones unchanged
(the specification's description of the resolver's tie-break policy). -/
def dedupByName (l : List PropEntry) : List PropEntry :=
  mergeProps [] l

/-!  ## Parsed-document model

Documents are modelled at the boundary of the DOM library: a definition
block is its structural identifier plus the data each selector used by
the script would return from it.  A characteristics-table row carries the
header text, the cell text, and the texts of the elements each of the
three selector families (`rref, a` / `sref, pref, a` / `a, code`) would
match inside the cell.  -/

structure RowData where
  header : String
  cellText : String
  refsRA : List String
  refsSP : List String
  refsAC : List String
deriving DecidableEq, Repr

/-- A `div.role` block of the primary document: its `id` attribute (blocks
without one are skipped), the text of `.role-description`, and its
characteristics-table rows in document order. -/
structure RoleDiv where
  id : Option String
  description : String
  rows : List RowData
deriving DecidableEq, Repr

/-- A `div.state` / `div.property` block of the primary document. -/
structure AttrDiv where
  id : Option String
  isState : Bool
  description : String
  rows : List RowData
deriving DecidableEq, Repr

/-- A role record as extracted by `parseRoles` (lines 41-58 for the
defaults) and later augmented by `main` (lines 477-484, `Option` fields
absent until the merge sets them) and `categorizeRoles` (`category`). -/
structure AriaRole where
  name : String
  description : String
  isAbstract : Bool := false
  superclassRoles : List String := []
  subclassRoles : List String := []
  relatedConcepts : List String := []
  requiredContextRole : List String := []
  requiredOwnedElements : List String := []
  requiredStates : List String := []
  supportedStates : List String := []
  inheritedStates : List String := []
  prohibitedStates : List String := []
  nameFrom : List String := []
  accessibleNameRequired : Bool := false
  childrenPresentational : Bool := false
  implicitValueForRole : List (String × String) := []
  parentRoles : Option (List String) := none
  localProps : Option (List PropEntry) := none
  allProps : Option (List PropEntry) := none
  category : Option String := none
deriving DecidableEq, Repr

/-!  ### The `implicit value` regex

`value.match(/([a-z-]+)\s*:\s*([^;,]+)/gi)` (line 95).  The pattern has
no backtracking between its pieces ( `[a-z-]` , whitespace, `:` and
`[^;,]` are pairwise disjoint enough), so a whole match starting at a
position is: a nonempty run of letters or dashes, optional whitespace, a
colon, then a nonempty run up to the next `;`/`,`.  The `g` flag scans
left to right, resuming after each match.  -/

def isImplicitNameChar (c : Char) : Bool :=
  (('a' ≤ c && c ≤ 'z') || ('A' ≤ c && c ≤ 'Z') || c == '-')

/-- Try the implicit-value pattern at the head of `s`; return the whole
match and the remainder of the string. -/
def matchImplicitAt (s : List Char) : Option (List Char × List Char) :=
  let nm := s.takeWhile isImplicitNameChar
  if nm.isEmpty then none
  else
    let s1 := s.dropWhile isImplicitNameChar
    let ws := s1.takeWhile Char.isWhitespace
    let s2 := s1.dropWhile Char.isWhitespace
    match s2 with
    | ':' :: s3 =>
      let tl := s3.takeWhile (fun c => !(c == ';') && !(c == ','))
      if tl.isEmpty then none
      else some (nm ++ ws ++ ':' :: tl, s3.dropWhile (fun c => !(c == ';') && !(c == ',')))
    | _ => none

/-- Left-to-right global scan of the implicit-value pattern.  Every step
consumes at least one character, so fuel equal to the string length is
exact. -/
def scanImplicitFuel : Nat → List Char → List (List Char)
  | 0, _ => []
  | _ + 1, [] => []
  | f + 1, c :: rest =>
    match matchImplicitAt (c :: rest) with
    | some mr => mr.1 :: scanImplicitFuel f mr.2
    | none => scanImplicitFuel f rest

/-- All whole matches of the implicit-value pattern, left to right. -/
def scanImplicit (s : List Char) : List (List Char) :=
  scanImplicitFuel s.length s

/-- `matches.forEach(...)` of lines 97-100: split each match on `:`,
trim the parts, and assign `implicitValueForRole[prop] = val` (a `null`
match result and an empty match list behave identically). -/
def applyImplicitMatches (m : List (String × String)) (value : String) :
    List (String × String) :=
  (scanImplicit value.data).foldl
    (fun acc mt =>
      let parts := (splitOnChar ':' mt).map (fun l => String.mk (trimChars l))
      insertAssoc acc (parts.getD 0 "") (parts.getD 1 ""))
    m

/-!  ### The enumerated-token regex

`value.match(/token(?:s)?\s*:?\s*([^|]+(?:\|[^|]+)*)/i)` (line 148).
The optional pieces after the literal `token` can backtrack, so the
candidate start positions of the capture group are enumerated in the
engine's order (rightmost piece gives back first) and the first position
whose tail can match ( nonempty, not starting with `|` ) wins.  The
capture group itself extends segment by segment and stops before the
first empty `|`-segment; splitting on `|`, trimming and dropping empties
(line 150) therefore equals taking segments up to the first empty one. -/

def downFrom : Nat → List Nat
  | 0 => [0]
  | n + 1 => (n + 1) :: downFrom n

/-- Can `[^|]+(?:\|[^|]+)*` start here? -/
def enumTailOK : List Char → Bool
  | [] => false
  | c :: _ => !(c == '|')

/-- Candidate tail start points after the literal `token`, in the
backtracking order of `(?:s)?\s*:?\s*` (each greedy, rightmost retried
first). -/
def enumCandidates (j0 : List Char) : List (List Char) :=
  let sOpts : List (List Char) :=
    match j0 with
    | c :: rest => if c.toLower == 's' then [rest, j0] else [j0]
    | [] => [j0]
  sOpts.flatMap (fun l1 =>
    (downFrom (l1.takeWhile Char.isWhitespace).length).flatMap (fun w1 =>
      let l2 := l1.drop w1
      let cOpts : List (List Char) :=
        match l2 with
        | ':' :: r => [r, l2]
        | _ => [l2]
      cOpts.flatMap (fun l3 =>
        (downFrom (l3.takeWhile Char.isWhitespace).length).map (fun w2 => l3.drop w2))))

/-- Scan for the leftmost full match of the enum regex; return the tail
(capture-group start) of the first success. -/
def findTokenMatch : List Char → Option (List Char)
  | [] => none
  | c :: rest =>
    if ((c :: rest).take 5).map Char.toLower == "token".data then
      match (enumCandidates ((c :: rest).drop 5)).find? enumTailOK with
      | some l4 => some l4
      | none => findTokenMatch rest
    else findTokenMatch rest

/-- `enumMatches[1].split('|').map(v => v.trim()).filter(Boolean)`
(line 150), with the capture group cut at the first empty segment. -/
def extractEnumValues (value : String) : Option (List String) :=
  (findTokenMatch value.data).map (fun l4 =>
    ((((splitOnChar '|' l4).takeWhile (fun sg => !sg.isEmpty)).map
      (fun sg => String.mk (trimChars sg))).filter (fun sg => sg ≠ "")))

/-!  ### Entity extraction  -/

/-- One characteristics-table row of a role block (the ordered
`if`/`else if` chain of lines 67-102; first match wins, one field per
row). -/
def applyRoleRow (role : AriaRole) (row : RowData) : AriaRole :=
  let header := lowerStr (cleanText row.header)
  let value := cleanText row.cellText
  let refsRA := (row.refsRA.map cleanText).filter (fun s => s ≠ "")
  let refsSP := (row.refsSP.map cleanText).filter (fun s => s ≠ "")
  let refsAC := (row.refsAC.map cleanText).filter (fun s => s ≠ "")
  if strIncludes header "superclass" then { role with superclassRoles := refsRA }
  else if strIncludes header "subclass" then { role with subclassRoles := refsRA }
  else if strIncludes header "related concept" then { role with relatedConcepts := refsAC }
  else if strIncludes header "required context" then { role with requiredContextRole := refsRA }
  else if strIncludes header "required owned" || strIncludes header "required children" then
    { role with requiredOwnedElements := refsRA }
  else if strIncludes header "required state" || strIncludes header "required properties" then
    { role with requiredStates := refsSP }
  else if strIncludes header "supported state" || strIncludes header "supported properties" then
    { role with supportedStates := refsSP }
  else if strIncludes header "inherited state" then { role with inheritedStates := refsSP }
  else if strIncludes header "prohibited state" || strIncludes header "prohibited properties" then
    { role with prohibitedStates := refsSP }
  else if strIncludes header "name from" then { role with nameFrom := splitTokens value }
  else if strIncludes header "accessible name required" then
    { role with accessibleNameRequired := lowerStr value == "true" }
  else if strIncludes header "children are presentational" ||
      strIncludes header "children presentational" then
    { role with childrenPresentational := lowerStr value == "true" }
  else if strIncludes header "is abstract" then
    { role with isAbstract := lowerStr value == "true" }
  else if strIncludes header "implicit value" then
    { role with implicitValueForRole := applyImplicitMatches role.implicitValueForRole value }
  else role

/-- Extract one role from its block (lines 41-105). -/
def parseRole (id : String) (d : RoleDiv) : AriaRole :=
  d.rows.foldl applyRoleRow { name := id, description := cleanText d.description }

/-- `parseRoles` (lines 32-109): one record per `div.role` with an id. -/
def parseRoles (divs : List RoleDiv) : List (String × AriaRole) :=
  divs.foldl
    (fun m d =>
      match d.id with
      | none => m
      | some id => insertAssoc m id (parseRole id d))
    []

/-- An attribute record as extracted by `parseStatesAndProperties`
(lines 125-136 give the defaults). -/
structure AttrRec where
  name : String
  type : String
  description : String
  valueType : String := ""
  defaultValue : String := ""
  applicableRoles : List String := []
  inheritedIntoRoles : List String := []
  relatedConcepts : List String := []
  values : List String := []
  isGlobal : Bool := false
deriving DecidableEq, Repr

/-- One characteristics-table row of a state/property block (the ordered
chain of lines 145-163). -/
def applyAttrRow (attr : AttrRec) (row : RowData) : AttrRec :=
  let header := lowerStr (cleanText row.header)
  let value := cleanText row.cellText
  let refsRA := (row.refsRA.map cleanText).filter (fun s => s ≠ "")
  let refsAC := (row.refsAC.map cleanText).filter (fun s => s ≠ "")
  if strIncludes header "value type" || strIncludes header "value" then
    (match extractEnumValues value with
     | some vs => { attr with valueType := value, values := vs }
     | none => { attr with valueType := value })
  else if strIncludes header "default" then { attr with defaultValue := value }
  else if strIncludes header "used in role" || strIncludes header "applicable to" then
    { attr with
      applicableRoles := refsRA
      isGlobal := attr.isGlobal || strIncludes (lowerStr value) "all elements" }
  else if strIncludes header "inherited into" then { attr with inheritedIntoRoles := refsRA }
  else if strIncludes header "related concept" then { attr with relatedConcepts := refsAC }
  else attr

/-- Extract one attribute from its block (lines 118-167). -/
def parseAttr (id : String) (d : AttrDiv) : AttrRec :=
  d.rows.foldl applyAttrRow
    { name := id,
      type := if d.isState then "state" else "property",
      description := cleanText d.description }

/-- `parseStatesAndProperties` (lines 114-170). -/
def parseStatesAndProperties (divs : List AttrDiv) : List (String × AttrRec) :=
  divs.foldl
    (fun m d =>
      match d.id with
      | none => m
      | some id => insertAssoc m id (parseAttr id d))
    []

/-- `Object.keys(statesAndProperties).filter(name =>
statesAndProperties[name].isGlobal).sort()` (lines 518-520). -/
def globalIndexOf (m : List (String × AttrRec)) : List String :=
  sortStrings ((m.map Prod.fst).filter (fun name =>
    match m.lookup name with
    | some a => a.isGlobal
    | none => false))

/-!  ### Categorizer (lines 352-433)  -/

inductive CatKind where
  | abstract
  | widget
  | document
  | landmark
  | liveRegion
  | window
  | composite
deriving DecidableEq, Repr

def catName : CatKind → String
  | .abstract => "abstract"
  | .widget => "widget"
  | .document => "document"
  | .landmark => "landmark"
  | .liveRegion => "liveRegion"
  | .window => "window"
  | .composite => "composite"

def abstractRoleNames : List String :=
  ["roletype", "structure", "widget", "window", "input", "range", "command",
   "composite", "section", "sectionhead", "select", "landmark"]

def widgetRoleNames : List String :=
  ["button", "checkbox", "gridcell", "link", "menuitem", "menuitemcheckbox",
   "menuitemradio", "option", "progressbar", "radio", "scrollbar", "searchbox",
   "separator", "slider", "spinbutton", "switch", "tab", "tabpanel", "textbox",
   "treeitem"]

def compositeRoleNames : List String :=
  ["combobox", "grid", "listbox", "menu", "menubar", "radiogroup", "tablist",
   "tree", "treegrid"]

/-- Declared in the script (lines 384-391) but never consulted by the
classification chain: roles matching no list default to `document`. -/
def documentRoleNames : List String :=
  ["application", "article", "blockquote", "caption", "cell", "code",
   "columnheader", "definition", "deletion", "directory", "document", "emphasis",
   "feed", "figure", "generic", "group", "heading", "img", "insertion", "list",
   "listitem", "math", "meter", "none", "note", "paragraph", "presentation",
   "row", "rowgroup", "rowheader", "strong", "subscript", "superscript",
   "table", "term", "time", "toolbar", "tooltip"]

def landmarkRoleNames : List String :=
  ["banner", "complementary", "contentinfo", "form", "main", "navigation",
   "region", "search"]

def liveRegionRoleNames : List String :=
  ["alert", "log", "marquee", "status", "timer"]

def windowRoleNames : List String :=
  ["alertdialog", "dialog"]

/-- The classification chain of lines 408-429, first match wins. -/
def categoryOf (roleName : String) (role : AriaRole) : CatKind :=
  if role.isAbstract || abstractRoleNames.contains roleName then .abstract
  else if landmarkRoleNames.contains roleName then .landmark
  else if liveRegionRoleNames.contains roleName then .liveRegion
  else if windowRoleNames.contains roleName then .window
  else if compositeRoleNames.contains roleName then .composite
  else if widgetRoleNames.contains roleName then .widget
  else .document

structure RoleCats where
  abstract : List String := []
  widget : List String := []
  document : List String := []
  landmark : List String := []
  liveRegion : List String := []
  window : List String := []
  composite : List String := []
deriving DecidableEq, Repr

def pushCat (cs : RoleCats) : CatKind → String → RoleCats
  | .abstract, n => { cs with abstract := cs.abstract ++ [n] }
  | .widget, n => { cs with widget := cs.widget ++ [n] }
  | .document, n => { cs with document := cs.document ++ [n] }
  | .landmark, n => { cs with landmark := cs.landmark ++ [n] }
  | .liveRegion, n => { cs with liveRegion := cs.liveRegion ++ [n] }
  | .window, n => { cs with window := cs.window ++ [n] }
  | .composite, n => { cs with composite := cs.composite ++ [n] }

def catListOf (cs : RoleCats) : CatKind → List String
  | .abstract => cs.abstract
  | .widget => cs.widget
  | .document => cs.document
  | .landmark => cs.landmark
  | .liveRegion => cs.liveRegion
  | .window => cs.window
  | .composite => cs.composite

/-- One iteration of the `Object.keys(roles).forEach` loop of
`categorizeRoles`. -/
def catStep (acc : RoleCats × List (String × AriaRole)) (kv : String × AriaRole) :
    RoleCats × List (String × AriaRole) :=
  (pushCat acc.1 (categoryOf kv.1 kv.2) kv.1,
   acc.2 ++ [(kv.1, { kv.2 with category := some (catName (categoryOf kv.1 kv.2)) })])

/-- `categorizeRoles(roles)` (lines 352-433): pushes each role name onto
its category list and sets `role.category` on the (shared, mutated) role
records, which the dataset then carries. -/
def categorizeRoles (roles : List (String × AriaRole)) :
    RoleCats × List (String × AriaRole) :=
  roles.foldl catStep (({} : RoleCats), [])

/-!  ### Auxiliary sources and the pipeline (lines 229-347, 438-541)  -/

/-- A `div.role` block of an extension-module document. -/
structure ModuleDiv where
  id : Option String
  description : String
deriving DecidableEq, Repr

/-- A module role record (lines 309-313 / 339-343). -/
structure ModuleRole where
  name : String
  module : String
  description : String
deriving DecidableEq, Repr

def parseModuleRoles (moduleName : String) (divs : List ModuleDiv) :
    List (String × ModuleRole) :=
  divs.foldl
    (fun m d =>
      match d.id with
      | none => m
      | some id =>
        insertAssoc m id
          { name := id, module := moduleName, description := cleanText d.description })
    []

/-- `parseDpubAria` (lines 292-317): a missing document degrades to an
empty collection plus a warning. -/
def parseDpubAria : Option (List ModuleDiv) → List (String × ModuleRole) × List String
  | none => ([], ["dpub-aria/index.html not found"])
  | some divs => (parseModuleRoles "dpub-aria" divs, [])

/-- `parseGraphicsAria` (lines 322-347). -/
def parseGraphicsAria : Option (List ModuleDiv) → List (String × ModuleRole) × List String
  | none => ([], ["graphics-aria/index.html not found"])
  | some divs => (parseModuleRoles "graphics-aria" divs, [])

/-- A table of the HTML-AAM document: caption text and rows of cell
texts (`td, th`). -/
structure AamTable where
  caption : String
  rows : List (List String)
deriving DecidableEq, Repr

structure HtmlMapping where
  element : String
  implicitRole : String
deriving DecidableEq, Repr

/-- The table walk of `parseHtmlAam` (lines 264-284): tables whose
caption mentions the recognized phrases contribute `(element, role)`
pairs, later rows overwriting earlier ones per element. -/
def parseHtmlAamTables (tables : List AamTable) : List (String × HtmlMapping) :=
  tables.foldl
    (fun m tb =>
      let cap := lowerStr (cleanText tb.caption)
      if strIncludes cap "html element" || strIncludes cap "role mapping" then
        tb.rows.foldl
          (fun m2 cells =>
            if cells.length ≥ 2 then
              let element := cleanText (cells.getD 0 "")
              let role := cleanText (cells.getD 1 "")
              if element ≠ "" ∧ role ≠ "" then
                insertAssoc m2 element { element := element, implicitRole := role }
              else m2
            else m2)
          m
      else m)
    []

/-- `parseHtmlAam` (lines 251-287). -/
def parseHtmlAam : Option (List AamTable) → List (String × HtmlMapping) × List String
  | none => ([], ["html-aam/index.html not found"])
  | some tables => (parseHtmlAamTables tables, [])

/-- The AccName document: title text and abstract text. -/
structure AccSrc where
  titleText : String
  abstractText : String
deriving DecidableEq, Repr

structure AccNameRec where
  title : String
  abstract : String
  specUrl : String
deriving DecidableEq, Repr

/-- `parseAccName` (lines 231-246); `|| fallback` on the falsy empty
string. -/
def parseAccName : Option AccSrc → Option AccNameRec × List String
  | none => (none, ["accname/index.html not found"])
  | some d =>
    (some
      { title :=
          if cleanText d.titleText == "" then
            "Accessible Name and Description Computation"
          else cleanText d.titleText,
        abstract := cleanText d.abstractText,
        specUrl := "https://w3c.github.io/accname/" }, [])

/-- `parseRoleInfoJS` (lines 175-197).  Outer `none`: the file is
missing; inner `none`: no recognizable embedded assignment or the
tolerant evaluation failed (the script warns with either message and
returns the empty table in both cases). -/
def parseRoleInfoJS : Option (Option RoleInfoTable) → RoleInfoTable × List String
  | none => ([], ["roleInfo.js not found, skipping"])
  | some none => ([], ["Could not parse roleInfo.js"])
  | some (some tbl) => (tbl, [])

/-- The merge step of `main` (lines 477-484): for every structured-table
entry whose role exists in the primary map, set `parentRoles`,
`localProps` and the freshly resolved `allProps`; roles absent from the
table are left untouched, with those fields still absent. -/
def mergeStep (info : RoleInfoTable) (rs : List (String × AriaRole))
    (kv : String × RoleEntry) : List (String × AriaRole) :=
  match rs.lookup kv.1 with
  | none => rs
  | some _ =>
    updateAssoc rs kv.1 (fun r =>
      { r with
        parentRoles := some (kv.2.parentRoles.getD []),
        localProps := some (kv.2.localprops.getD []),
        allProps := some (buildAllProps info kv.1) })

def mergeRoleInfoIntoRoles (roles : List (String × AriaRole)) (info : RoleInfoTable) :
    List (String × AriaRole) :=
  info.foldl (mergeStep info) roles

/-- The primary specification document: its role blocks and its
state/property blocks. -/
structure AriaDoc where
  roleDivs : List RoleDiv
  attrDivs : List AttrDiv
deriving DecidableEq, Repr

/-- The local documents a run may find: `none` is a missing file, the
nested `Option` for `roleInfoSrc` distinguishes unparseable content.
`now` models the wall clock read for the metadata timestamp. -/
structure ParseEnv where
  ariaDoc : Option AriaDoc
  roleInfoSrc : Option (Option RoleInfoTable)
  accnameDoc : Option AccSrc
  htmlAamDoc : Option (List AamTable)
  dpubDoc : Option (List ModuleDiv)
  graphicsDoc : Option (List ModuleDiv)
  now : String
deriving Repr

structure MetadataRec where
  version : String
  generatedAt : String
  sourceUrl : String
  specUrl : String
deriving DecidableEq, Repr

structure ServerInfoRec where
  name : String
  version : String
  description : String
deriving DecidableEq, Repr

structure ExtensionsRec where
  dpub : List (String × ModuleRole)
  graphics : List (String × ModuleRole)
deriving DecidableEq, Repr

/-- The serialized dataset (lines 507-532). -/
structure AriaDataset where
  metadata : MetadataRec
  roles : List (String × AriaRole)
  roleCategories : RoleCats
  states : List (String × AttrRec)
  properties : List (String × AttrRec)
  globalStatesAndProperties : List String
  htmlMappings : List (String × HtmlMapping)
  extensions : ExtensionsRec
  accname : Option AccNameRec
  serverInfo : ServerInfoRec
deriving DecidableEq, Repr

/-- `main` (lines 438-541).  The first component collects the warning
trace; the second is `none` exactly when the run aborts before writing
output (`process.exit(1)` on a missing primary document, line 445). -/
def mainPipeline (env : ParseEnv) : List String × Option AriaDataset :=
  match env.ariaDoc with
  | none => (["ARIA index.html not found"], none)
  | some doc =>
    let roles0 := parseRoles doc.roleDivs
    let sAndP := parseStatesAndProperties doc.attrDivs
    let infoW := parseRoleInfoJS env.roleInfoSrc
    let roles1 := mergeRoleInfoIntoRoles roles0 infoW.1
    let catsAndRoles := categorizeRoles roles1
    let accW := parseAccName env.accnameDoc
    let mapW := parseHtmlAam env.htmlAamDoc
    let dpubW := parseDpubAria env.dpubDoc
    let graphW := parseGraphicsAria env.graphicsDoc
    (infoW.2 ++ accW.2 ++ mapW.2 ++ dpubW.2 ++ graphW.2,
     some
       { metadata :=
           { version := "1.3", generatedAt := env.now,
             sourceUrl := "https://github.com/w3c/aria",
             specUrl := "https://w3c.github.io/aria/" },
         roles := catsAndRoles.2,
         roleCategories := catsAndRoles.1,
         states := sAndP.filter (fun kv => kv.2.type == "state"),
         properties := sAndP.filter (fun kv => !(kv.2.type == "state")),
         globalStatesAndProperties := globalIndexOf sAndP,
         htmlMappings := mapW.1,
         extensions := { dpub := dpubW.1, graphics := graphW.1 },
         accname := accW.1,
         serverInfo :=
           { name := "aria-mcp", version := "1.0.0",
             description := "ARIA specification MCP server for accessibility professionals and AI agents" } })

/-!  ### Branch guards of the role row chain

`rowSets...` holds exactly when the chain of `applyRoleRow` reaches the
corresponding boolean branch: the header contains that branch's phrase
and none of the phrases of the earlier branches. -/

def roleHeaderOf (row : RowData) : String :=
  lowerStr (cleanText row.header)

def earlierThanAccName (h : String) : Bool :=
  strIncludes h "superclass" || strIncludes h "subclass" ||
  strIncludes h "related concept" || strIncludes h "required context" ||
  strIncludes h "required owned" || strIncludes h "required children" ||
  strIncludes h "required state" || strIncludes h "required properties" ||
  strIncludes h "supported state" || strIncludes h "supported properties" ||
  strIncludes h "inherited state" || strIncludes h "prohibited state" ||
  strIncludes h "prohibited properties" || strIncludes h "name from"

def earlierThanChildrenPres (h : String) : Bool :=
  earlierThanAccName h || strIncludes h "accessible name required"

def earlierThanIsAbstract (h : String) : Bool :=
  earlierThanChildrenPres h || strIncludes h "children are presentational" ||
  strIncludes h "children presentational"

def rowSetsAccName (row : RowData) : Bool :=
  !earlierThanAccName (roleHeaderOf row) &&
  strIncludes (roleHeaderOf row) "accessible name required"

def rowSetsChildrenPres (row : RowData) : Bool :=
  !earlierThanChildrenPres (roleHeaderOf row) &&
  (strIncludes (roleHeaderOf row) "children are presentational" ||
   strIncludes (roleHeaderOf row) "children presentational")

def rowSetsIsAbstract (row : RowData) : Bool :=
  !earlierThanIsAbstract (roleHeaderOf row) &&
  strIncludes (roleHeaderOf row) "is abstract"

/-!  ### Concrete data used by witnesses and counterexamples  -/

/-- The spec's own scenario table: `switch` inherits from `checkbox`. -/
def witTable : RoleInfoTable :=
  [("switch",
    { parentRoles := some ["checkbox"]
      localprops := some [⟨"aria-checked", true⟩]
      allprops := none }),
   ("checkbox",
    { parentRoles := some []
      localprops := some [⟨"aria-checked", true⟩, ⟨"aria-label", false⟩]
      allprops := none })]

/-- A mutually recursive parent cycle. -/
def cycTable : RoleInfoTable :=
  [("a", { parentRoles := some ["b"], localprops := some [⟨"x", true⟩], allprops := none }),
   ("b", { parentRoles := some ["a"], localprops := some [⟨"y", false⟩], allprops := none })]

/-- Acyclic table where `r` has a nonempty parent list but also a
precomputed (empty) `allprops`, which the resolver returns verbatim
without consulting the parent. -/
def cexTableC1 : RoleInfoTable :=
  [("r", { parentRoles := some ["p"], localprops := some [], allprops := some [] }),
   ("p", { parentRoles := some [], localprops := some [⟨"aria-label", false⟩], allprops := none })]

/-- Acyclic table where `r` has a nonempty parent list and duplicated
local property names, which the resolver keeps. -/
def cexTableC1b : RoleInfoTable :=
  [("r",
    { parentRoles := some ["p"]
      localprops := some [⟨"aria-checked", true⟩, ⟨"aria-checked", false⟩]
      allprops := none }),
   ("p", { parentRoles := some [], localprops := some [], allprops := none })]

/-- Table whose sole entry has duplicated local property names. -/
def cexTableC3 : RoleInfoTable :=
  [("r",
    { parentRoles := some []
      localprops := some [⟨"aria-checked", true⟩, ⟨"aria-checked", false⟩]
      allprops := none })]

/-- Attribute whose applicability cell reads `All elements of the base
markup` (the primary document's phrasing for global attributes). -/
def allElementsDiv : AttrDiv :=
  { id := some "aria-live"
    isState := false
    description := "live region politeness"
    rows := [⟨"Used in Roles:", "All elements of the base markup", [], [], []⟩] }

/-- Attribute whose applicability cell reads `Any element`. -/
def anyElementDiv : AttrDiv :=
  { id := some "aria-foo"
    isState := false
    description := "d"
    rows := [⟨"Used in Roles:", "Any element", [], [], []⟩] }

/-- Attribute whose applicability cell lists only two roles. -/
def buttonLinkDiv : AttrDiv :=
  { id := some "aria-bar"
    isState := true
    description := "d"
    rows := [⟨"Used in Roles:", "button, link", ["button", "link"], [], []⟩] }

/-- A primary role with prose superclasses, absent from the structured
table. -/
def roleFooC5 : AriaRole :=
  { name := "foo", description := "", superclassRoles := ["bar"] }

def rolesC5 : List (String × AriaRole) := [("foo", roleFooC5)]

/-- Structured table not mentioning `foo`. -/
def infoC5 : RoleInfoTable :=
  [("bar", { parentRoles := some [], localprops := some [⟨"aria-label", false⟩], allprops := none })]

/-- Small role map exercising several category rules. -/
def rolesC6 : List (String × AriaRole) :=
  [("banner", { name := "banner", description := "" }),
   ("switch", { name := "switch", description := "" }),
   ("roletype", { name := "roletype", description := "", isAbstract := true }),
   ("customthing", { name := "customthing", description := "" })]

/-- Environment with the primary document missing. -/
def envFatal : ParseEnv :=
  { ariaDoc := none, roleInfoSrc := none, accnameDoc := none,
    htmlAamDoc := none, dpubDoc := none, graphicsDoc := none, now := "T" }

/-- Environment with a primary document and every optional source
missing. -/
def envDegraded : ParseEnv :=
  { ariaDoc := some { roleDivs := [⟨some "switch", "a switch", []⟩], attrDivs := [allElementsDiv] }
    roleInfoSrc := none
    accnameDoc := none
    htmlAamDoc := none
    dpubDoc := none
    graphicsDoc := none
    now := "T" }

/-- Environment where the primary document and both extension modules
each define a role named `doc-example`. -/
def envModules : ParseEnv :=
  { ariaDoc := some { roleDivs := [⟨some "doc-example", "primary role", []⟩], attrDivs := [] }
    roleInfoSrc := none
    accnameDoc := none
    htmlAamDoc := none
    dpubDoc := some [⟨some "doc-example", "dpub role"⟩]
    graphicsDoc := some [⟨some "doc-example", "graphics role"⟩]
    now := "T" }

/-- A characteristics-table row `Accessible Name Required: True`. -/
def rowAccNameTrue : RowData := ⟨"Accessible Name Required:", "True", [], [], []⟩

/-- A characteristics-table row `Is Abstract: true`. -/
def rowIsAbstractTrue : RowData := ⟨"Is Abstract", "true", [], [], []⟩

/-- A characteristics-table row whose abstract cell holds other text. -/
def rowIsAbstractOther : RowData := ⟨"Is Abstract", "sometimes true", [], [], []⟩

/-- A row `Children Presentational: True` and a role block with no
boolean rows at all. -/
def rowChildrenPresTrue : RowData := ⟨"Children Presentational:", "TRUE", [], [], []⟩

def roleDivNoBool : RoleDiv :=
  { id := some "plain"
    description := "no boolean rows"
    rows := [⟨"Superclass Role:", "roletype", ["roletype"], [], []⟩] }

-- ===== THEOREMS =====

theorem hasName_append (a b : List PropEntry) (n : String) :
    hasName (a ++ b) n = (hasName a n || hasName b n) := by
  simp [hasName, List.any_append]

theorem hasName_nil (n : String) : hasName [] n = false := rfl

theorem hasName_self (p : PropEntry) (rest : List PropEntry) :
    hasName (p :: rest) p.name = true := by
  simp [hasName]

theorem mergeProps_nil (a : List PropEntry) : mergeProps a [] = a := rfl

theorem mergeProps_cons (a : List PropEntry) (p : PropEntry) (b : List PropEntry) :
    mergeProps a (p :: b) =
      if hasName a p.name then mergeProps a b else mergeProps (a ++ [p]) b := by
  rw [mergeProps]

theorem hasName_cons (p : PropEntry) (rest : List PropEntry) (n : String) :
    hasName (p :: rest) n = ((p.name == n) || hasName rest n) := by
  simp [hasName, List.any_cons]

theorem mergeProps_hasName (b a : List PropEntry) (n : String) :
    hasName (mergeProps a b) n = (hasName a n || hasName b n) := by
  induction b generalizing a with
  | nil => simp [mergeProps_nil, hasName_nil]
  | cons p rest ih =>
    rw [mergeProps_cons, hasName_cons]
    by_cases hp : hasName a p.name = true
    · rw [if_pos hp, ih]
      by_cases he : (p.name == n) = true
      · have hn : hasName a n = true := by
          rw [← eq_of_beq he]; exact hp
        simp [hn, he]
      · have he' : (p.name == n) = false := by
          cases h : (p.name == n)
          · rfl
          · exact absurd h he
        simp [he']
    · have hp' : hasName a p.name = false := by
        cases h : hasName a p.name
        · rfl
        · exact absurd h hp
      rw [if_neg hp, ih, hasName_append]
      have h1 : hasName [p] n = (p.name == n) := by simp [hasName]
      rw [h1, Bool.or_assoc]

theorem mergeProps_prefix (b a : List PropEntry) :
    ∃ ext, mergeProps a b = a ++ ext := by
  induction b generalizing a with
  | nil => exact ⟨[], by simp [mergeProps_nil]⟩
  | cons p rest ih =>
    rw [mergeProps_cons]
    by_cases hp : hasName a p.name = true
    · rw [if_pos hp]; exact ih a
    · rw [if_neg hp]
      obtain ⟨ext, hext⟩ := ih (a ++ [p])
      exact ⟨p :: ext, by simp [hext]⟩

theorem mergeProps_append (b c a : List PropEntry) :
    mergeProps a (b ++ c) = mergeProps (mergeProps a b) c := by
  induction b generalizing a with
  | nil => simp [mergeProps_nil]
  | cons p rest ih =>
    rw [List.cons_append, mergeProps_cons, mergeProps_cons]
    by_cases hp : hasName a p.name = true
    · rw [if_pos hp, if_pos hp]; exact ih a
    · rw [if_neg hp, if_neg hp]; exact ih (a ++ [p])

theorem namesNodupB_push (a : List PropEntry) (p : PropEntry)
    (ha : namesNodupB a = true) (hp : hasName a p.name = false) :
    namesNodupB (a ++ [p]) = true := by
  induction a with
  | nil => simp [namesNodupB, hasName_nil]
  | cons q rest ih =>
    rw [namesNodupB, Bool.and_eq_true, Bool.not_eq_true'] at ha
    rw [hasName_cons, Bool.or_eq_false_iff] at hp
    rw [List.cons_append, namesNodupB, Bool.and_eq_true, Bool.not_eq_true']
    refine ⟨?_, ih ha.2 hp.2⟩
    rw [hasName_append, ha.1, Bool.false_or]
    simp only [hasName, List.any_cons, List.any_nil, Bool.or_false]
    rw [beq_eq_false_iff_ne] at hp ⊢
    exact fun h => hp.1 h.symm

theorem mergeProps_nodup (b a : List PropEntry) (ha : namesNodupB a = true) :
    namesNodupB (mergeProps a b) = true := by
  induction b generalizing a with
  | nil => simpa [mergeProps_nil]
  | cons p rest ih =>
    rw [mergeProps_cons]
    by_cases hp : hasName a p.name = true
    · rw [if_pos hp]; exact ih a ha
    · rw [if_neg hp]
      refine ih (a ++ [p]) (namesNodupB_push a p ha ?_)
      cases h : hasName a p.name
      · rfl
      · exact absurd h hp

theorem buildParentsFuel_nil (t : RoleInfoTable) (f : Nat)
    (props : List PropEntry) (visited : List String) :
    buildParentsFuel t f [] props visited = (props, visited) := rfl

theorem buildParentsFuel_cons (t : RoleInfoTable) (f : Nat) (p : String)
    (rest : List String) (props : List PropEntry) (visited : List String) :
    buildParentsFuel t f (p :: rest) props visited =
      buildParentsFuel t f rest
        (mergeProps props (buildAllPropsFuel t f p visited).1)
        (buildAllPropsFuel t f p visited).2 := rfl

theorem buildAllPropsFuel_zero (t : RoleInfoTable) (r : String) (visited : List String) :
    buildAllPropsFuel t 0 r visited = ([], visited) := rfl

theorem buildAllPropsFuel_succ (t : RoleInfoTable) (f : Nat) (r : String)
    (visited : List String) :
    buildAllPropsFuel t (f + 1) r visited =
      if visited.contains r then ([], visited)
      else
        match t.lookup r with
        | none => ([], r :: visited)
        | some role =>
          match role.allprops with
          | some ap => (ap, r :: visited)
          | none =>
            buildParentsFuel t f (role.parentRoles.getD [])
              (role.localprops.getD []) (r :: visited) := rfl

theorem lookup_mem_pair {α : Type} (l : List (String × α)) (k : String) (v : α)
    (h : l.lookup k = some v) : (k, v) ∈ l := by
  induction l with
  | nil => simp [List.lookup] at h
  | cons kv rest ih =>
    obtain ⟨a, b⟩ := kv
    rw [List.lookup] at h
    by_cases he : (k == a) = true
    · rw [he] at h
      simp at h
      have hk : k = a := eq_of_beq he
      rw [hk, h]
      exact List.mem_cons_self _ _
    · have he' : (k == a) = false := by
        cases h2 : (k == a)
        · rfl
        · exact absurd h2 he
      rw [he'] at h
      exact List.mem_cons_of_mem _ (ih h)

theorem lookup_none_of_not_mem_keys {α : Type} (l : List (String × α)) (k : String)
    (h : k ∉ l.map Prod.fst) : l.lookup k = none := by
  induction l with
  | nil => rfl
  | cons kv rest ih =>
    rw [List.map_cons, List.mem_cons] at h
    push_neg at h
    rw [List.lookup]
    have : (k == kv.1) = false := by
      rw [beq_eq_false_iff_ne]
      exact h.1
    rw [this]
    exact ih h.2

theorem contains_iff_mem (l : List String) (a : String) :
    l.contains a = true ↔ a ∈ l := List.elem_iff

theorem visited_mono_bp (t : RoleInfoTable) (f : Nat)
    (hA : ∀ r vis x, x ∈ vis → x ∈ (buildAllPropsFuel t f r vis).2) :
    ∀ ps props vis x, x ∈ vis → x ∈ (buildParentsFuel t f ps props vis).2 := by
  intro ps
  induction ps with
  | nil => intro props vis x hx; rw [buildParentsFuel_nil]; exact hx
  | cons p rest ih =>
    intro props vis x hx
    rw [buildParentsFuel_cons]
    exact ih _ _ x (hA p vis x hx)

theorem visited_mono (t : RoleInfoTable) :
    ∀ f r vis x, x ∈ vis → x ∈ (buildAllPropsFuel t f r vis).2 := by
  intro f
  induction f with
  | zero => intro r vis x hx; rw [buildAllPropsFuel_zero]; exact hx
  | succ f ih =>
    intro r vis x hx
    rw [buildAllPropsFuel_succ]
    by_cases hc : vis.contains r = true
    · rw [if_pos hc]; exact hx
    · rw [if_neg hc]
      cases hl : t.lookup r with
      | none => exact List.mem_cons_of_mem _ hx
      | some role =>
        dsimp only
        cases hap : role.allprops with
        | some ap => exact List.mem_cons_of_mem _ hx
        | none =>
          exact visited_mono_bp t f ih _ _ _ x (List.mem_cons_of_mem _ hx)

theorem expand_mem (t : RoleInfoTable) (f : Nat) (r : String) (vis : List String)
    (hf : 0 < f) : r ∈ (buildAllPropsFuel t f r vis).2 := by
  cases f with
  | zero => omega
  | succ f =>
    rw [buildAllPropsFuel_succ]
    by_cases hc : vis.contains r = true
    · rw [if_pos hc]
      exact (contains_iff_mem vis r).mp hc
    · rw [if_neg hc]
      cases hl : t.lookup r with
      | none => exact List.mem_cons_self r vis
      | some role =>
        dsimp only
        cases hap : role.allprops with
        | some ap => exact List.mem_cons_self r vis
        | none =>
          exact visited_mono_bp t f (visited_mono t f) _ _ _ r (List.mem_cons_self r vis)

theorem props_mono_bp (t : RoleInfoTable) (f : Nat) :
    ∀ ps props vis n, hasName props n = true →
      hasName (buildParentsFuel t f ps props vis).1 n = true := by
  intro ps
  induction ps with
  | nil => intro props vis n hn; rw [buildParentsFuel_nil]; exact hn
  | cons p rest ih =>
    intro props vis n hn
    rw [buildParentsFuel_cons]
    refine ih _ _ n ?_
    rw [mergeProps_hasName, hn, Bool.true_or]

theorem contrib_bp (t : RoleInfoTable) (f : Nat)
    (hA : ∀ r vis n k, k ∈ (buildAllPropsFuel t f r vis).2 → k ∉ vis →
      ContribHas t k n → hasName (buildAllPropsFuel t f r vis).1 n = true) :
    ∀ ps props vis n k, k ∈ (buildParentsFuel t f ps props vis).2 → k ∉ vis →
      ContribHas t k n → hasName (buildParentsFuel t f ps props vis).1 n = true := by
  intro ps
  induction ps with
  | nil =>
    intro props vis n k hk hnv _
    rw [buildParentsFuel_nil] at hk
    exact absurd hk hnv
  | cons p rest ih =>
    intro props vis n k hk hnv hc
    rw [buildParentsFuel_cons] at hk ⊢
    by_cases hsub : k ∈ (buildAllPropsFuel t f p vis).2
    · have h1 : hasName (buildAllPropsFuel t f p vis).1 n = true := hA p vis n k hsub hnv hc
      refine props_mono_bp t f rest _ _ n ?_
      rw [mergeProps_hasName, h1, Bool.or_true]
    · exact ih _ _ n k hk hsub hc

theorem contrib_run (t : RoleInfoTable) :
    ∀ f r vis n k, k ∈ (buildAllPropsFuel t f r vis).2 → k ∉ vis →
      ContribHas t k n → hasName (buildAllPropsFuel t f r vis).1 n = true := by
  intro f
  induction f with
  | zero =>
    intro r vis n k hk hnv _
    rw [buildAllPropsFuel_zero] at hk
    exact absurd hk hnv
  | succ f ih =>
    intro r vis n k hk hnv hc
    rw [buildAllPropsFuel_succ] at hk ⊢
    by_cases hcr : vis.contains r = true
    · rw [if_pos hcr] at hk
      exact absurd hk hnv
    · rw [if_neg hcr] at hk ⊢
      cases hl : t.lookup r with
      | none =>
        rw [hl] at hk
        dsimp only at hk ⊢
        rcases List.mem_cons.mp hk with h | h
        · subst h
          obtain ⟨e, he, _⟩ := hc
          rw [hl] at he
          cases he
        · exact absurd h hnv
      | some role =>
        rw [hl] at hk
        dsimp only at hk ⊢
        cases hap : role.allprops with
        | some ap =>
          rw [hap] at hk
          dsimp only at hk ⊢
          rcases List.mem_cons.mp hk with h | h
          · subst h
            obtain ⟨e, he, hhe⟩ := hc
            rw [hl] at he
            injection he with he
            subst he
            rw [hap] at hhe
            simpa using hhe
          · exact absurd h hnv
        | none =>
          rw [hap] at hk
          dsimp only at hk ⊢
          by_cases hkr : k = r
          · subst hkr
            obtain ⟨e, he, hhe⟩ := hc
            rw [hl] at he
            injection he with he
            subst he
            rw [hap] at hhe
            dsimp only [Option.getD] at hhe
            exact props_mono_bp t f _ _ _ n hhe
          · refine contrib_bp t f ih _ _ _ n k hk ?_ hc
            intro hmem
            rcases List.mem_cons.mp hmem with h | h
            · exact hkr h
            · exact hnv h

theorem source_bp (t : RoleInfoTable) (f : Nat)
    (hA : ∀ r vis n, hasName (buildAllPropsFuel t f r vis).1 n = true →
      ∃ k, k ∈ (buildAllPropsFuel t f r vis).2 ∧ k ∉ vis ∧ ContribHas t k n) :
    ∀ ps props vis n, hasName (buildParentsFuel t f ps props vis).1 n = true →
      hasName props n = true ∨
      ∃ k, k ∈ (buildParentsFuel t f ps props vis).2 ∧ k ∉ vis ∧ ContribHas t k n := by
  intro ps
  induction ps with
  | nil =>
    intro props vis n hn
    rw [buildParentsFuel_nil] at hn
    exact Or.inl hn
  | cons p rest ih =>
    intro props vis n hn
    rw [buildParentsFuel_cons] at hn
    rcases ih _ _ n hn with hmerge | ⟨k, hk1, hk2, hk3⟩
    · rw [mergeProps_hasName] at hmerge
      rcases Bool.or_eq_true_iff.mp hmerge with h | h
      · exact Or.inl h
      · obtain ⟨k, hk1, hk2, hk3⟩ := hA p vis n h
        refine Or.inr ⟨k, ?_, hk2, hk3⟩
        rw [buildParentsFuel_cons]
        exact visited_mono_bp t f (visited_mono t f) _ _ _ k hk1
    · refine Or.inr ⟨k, ?_, ?_, hk3⟩
      · rw [buildParentsFuel_cons]; exact hk1
      · intro hmem
        exact hk2 (visited_mono t f p vis k hmem)

theorem source_run (t : RoleInfoTable) :
    ∀ f r vis n, hasName (buildAllPropsFuel t f r vis).1 n = true →
      ∃ k, k ∈ (buildAllPropsFuel t f r vis).2 ∧ k ∉ vis ∧ ContribHas t k n := by
  intro f
  induction f with
  | zero =>
    intro r vis n hn
    rw [buildAllPropsFuel_zero] at hn
    simp [hasName_nil] at hn
  | succ f ih =>
    intro r vis n hn
    rw [buildAllPropsFuel_succ] at hn ⊢
    by_cases hcr : vis.contains r = true
    · rw [if_pos hcr] at hn
      simp [hasName_nil] at hn
    · rw [if_neg hcr] at hn ⊢
      have hrnv : r ∉ vis := fun hmem =>
        hcr ((contains_iff_mem vis r).mpr hmem)
      cases hl : t.lookup r with
      | none =>
        rw [hl] at hn
        simp [hasName_nil] at hn
      | some role =>
        rw [hl] at hn
        dsimp only at hn ⊢
        cases hap : role.allprops with
        | some ap =>
          rw [hap] at hn
          dsimp only at hn ⊢
          exact ⟨r, List.mem_cons_self r vis, hrnv,
            ⟨role, hl, by rw [hap]; simpa using hn⟩⟩
        | none =>
          rw [hap] at hn
          dsimp only at hn ⊢
          rcases source_bp t f ih _ _ _ n hn with h | ⟨k, hk1, hk2, hk3⟩
          · refine ⟨r, ?_, hrnv, ⟨role, hl, ?_⟩⟩
            · exact visited_mono_bp t f (visited_mono t f) _ _ _ r (List.mem_cons_self r vis)
            · rw [hap]; exact h
          · refine ⟨k, hk1, ?_, hk3⟩
            intro hmem
            exact hk2 (List.mem_cons_of_mem _ hmem)

theorem length_filter_mono (l : List String) (p q : String → Bool)
    (h : ∀ x, q x = true → p x = true) :
    (l.filter q).length ≤ (l.filter p).length :=
  (List.monotone_filter_right l h).length_le

theorem freshCount_mono (t : RoleInfoTable) (vis vis' : List String)
    (h : ∀ x, x ∈ vis → x ∈ vis') :
    freshCount t vis' ≤ freshCount t vis := by
  refine length_filter_mono _ _ _ ?_
  intro x hx
  rw [Bool.not_eq_true'] at hx ⊢
  cases hc : vis.contains x
  · rfl
  · exfalso
    have := h x ((contains_iff_mem vis x).mp hc)
    rw [← contains_iff_mem] at this
    rw [this] at hx
    cases hx

theorem length_filter_cons_lt (K : List String) (vis : List String) (r : String)
    (hr : r ∈ K) (hnv : r ∉ vis) :
    (K.filter (fun k => !(r :: vis).contains k)).length <
      (K.filter (fun k => !vis.contains k)).length := by
  induction K with
  | nil => cases hr
  | cons a rest ih =>
    have hmono : ∀ x : String, (!(r :: vis).contains x) = true →
        (!vis.contains x) = true := by
      intro x hx
      rw [Bool.not_eq_true'] at hx ⊢
      cases hc : vis.contains x
      · rfl
      · exfalso
        have hx' : ((r :: vis).contains x) = true := by
          rw [contains_iff_mem]
          exact List.mem_cons_of_mem _ ((contains_iff_mem vis x).mp hc)
        rw [hx'] at hx
        cases hx
    rw [List.filter_cons, List.filter_cons]
    by_cases ha : a = r
    · subst ha
      have h1 : ((a :: vis).contains a) = true := by
        rw [contains_iff_mem]
        exact List.mem_cons_self _ _
      have h2 : (vis.contains a) = false := by
        rw [Bool.eq_false_iff]
        intro hc
        exact hnv ((contains_iff_mem vis a).mp hc)
      rw [h1, h2]
      have hle := (List.monotone_filter_right rest hmono).length_le
      simp only [Bool.not_true, Bool.not_false]
      simp only [Bool.false_eq_true, if_false, if_true, List.length_cons]
      omega
    · have hstep : ∀ b : Bool,
          ((if b = true then a :: rest.filter (fun k => !(r :: vis).contains k)
            else rest.filter (fun k => !(r :: vis).contains k)).length <
           (if b = true then a :: rest.filter (fun k => !vis.contains k)
            else rest.filter (fun k => !vis.contains k)).length) := by
        intro b
        have hr' : r ∈ rest := by
          rcases List.mem_cons.mp hr with h | h
          · exact absurd h.symm ha
          · exact h
        have := ih hr'
        cases b <;> simp only [Bool.false_eq_true, if_false, if_true, List.length_cons] <;> omega
      have hsame : (!(r :: vis).contains a) = (!vis.contains a) := by
        have : ((r :: vis).contains a) = (vis.contains a) := by
          cases hc : vis.contains a
          · rw [Bool.eq_false_iff]
            intro hc2
            rcases List.mem_cons.mp ((contains_iff_mem _ a).mp hc2) with h | h
            · exact ha h
            · rw [← contains_iff_mem] at h
              rw [h] at hc
              cases hc
          · rw [contains_iff_mem]
            exact List.mem_cons_of_mem _ ((contains_iff_mem vis a).mp hc)
        rw [this]
      rw [hsame]
      exact hstep (!vis.contains a)

theorem freshCount_strict (t : RoleInfoTable) (vis : List String) (r : String)
    (hr : r ∈ t.map Prod.fst) (hnv : r ∉ vis) :
    freshCount t (r :: vis) < freshCount t vis := by
  unfold freshCount
  exact length_filter_cons_lt (t.map Prod.fst) vis r hr hnv

theorem mem_keys_of_lookup (t : RoleInfoTable) (r : String) (e : RoleEntry)
    (h : t.lookup r = some e) : r ∈ t.map Prod.fst :=
  List.mem_map.mpr ⟨(r, e), lookup_mem_pair t r e h, rfl⟩

theorem parents_in_visited_bp (t : RoleInfoTable) (f : Nat) (hf : 0 < f) :
    ∀ ps props vis p, p ∈ ps → p ∈ (buildParentsFuel t f ps props vis).2 := by
  intro ps
  induction ps with
  | nil => intro props vis p hp; cases hp
  | cons q rest ih =>
    intro props vis p hp
    rw [buildParentsFuel_cons]
    rcases List.mem_cons.mp hp with h | h
    · subst h
      exact visited_mono_bp t f (visited_mono t f) _ _ _ p (expand_mem t f p vis hf)
    · exact ih _ _ p h

theorem closure_bp (t : RoleInfoTable) (f : Nat)
    (hA : ∀ r vis, freshCount t vis < f → ∀ k b, k ∈ (buildAllPropsFuel t f r vis).2 →
      k ∉ vis → ParentEdge t k b → b ∈ (buildAllPropsFuel t f r vis).2) :
    ∀ ps props vis, freshCount t vis < f → ∀ k b,
      k ∈ (buildParentsFuel t f ps props vis).2 → k ∉ vis → ParentEdge t k b →
      b ∈ (buildParentsFuel t f ps props vis).2 := by
  intro ps
  induction ps with
  | nil =>
    intro props vis _ k b hk hnv _
    rw [buildParentsFuel_nil] at hk
    exact absurd hk hnv
  | cons p rest ih =>
    intro props vis hfc k b hk hnv hedge
    rw [buildParentsFuel_cons] at hk ⊢
    by_cases hsub : k ∈ (buildAllPropsFuel t f p vis).2
    · have hb := hA p vis hfc k b hsub hnv hedge
      exact visited_mono_bp t f (visited_mono t f) _ _ _ b hb
    · have hfc2 : freshCount t (buildAllPropsFuel t f p vis).2 < f :=
        lt_of_le_of_lt (freshCount_mono t vis _ (visited_mono t f p vis)) hfc
      exact ih _ _ hfc2 k b hk hsub hedge

theorem closure_run (t : RoleInfoTable) :
    ∀ f r vis, freshCount t vis < f → ∀ k b, k ∈ (buildAllPropsFuel t f r vis).2 →
      k ∉ vis → ParentEdge t k b → b ∈ (buildAllPropsFuel t f r vis).2 := by
  intro f
  induction f with
  | zero => intro r vis hfc; omega
  | succ f ih =>
    intro r vis hfc k b hk hnv hedge
    rw [buildAllPropsFuel_succ] at hk ⊢
    by_cases hcr : vis.contains r = true
    · rw [if_pos hcr] at hk
      exact absurd hk hnv
    · rw [if_neg hcr] at hk ⊢
      have hrnv : r ∉ vis := fun hmem => hcr ((contains_iff_mem vis r).mpr hmem)
      cases hl : t.lookup r with
      | none =>
        rw [hl] at hk
        dsimp only at hk ⊢
        rcases List.mem_cons.mp hk with h | h
        · subst h
          obtain ⟨e, he, _⟩ := hedge
          rw [hl] at he
          cases he
        · exact absurd h hnv
      | some role =>
        rw [hl] at hk
        dsimp only at hk ⊢
        cases hap : role.allprops with
        | some ap =>
          rw [hap] at hk
          dsimp only at hk ⊢
          rcases List.mem_cons.mp hk with h | h
          · subst h
            obtain ⟨e, he, heap, _⟩ := hedge
            rw [hl] at he
            injection he with he
            subst he
            rw [hap] at heap
            cases heap
          · exact absurd h hnv
        | none =>
          rw [hap] at hk
          dsimp only at hk ⊢
          have hrk : r ∈ t.map Prod.fst := mem_keys_of_lookup t r role hl
          have hs : freshCount t (r :: vis) < freshCount t vis :=
            freshCount_strict t vis r hrk hrnv
          have hfc1 : freshCount t (r :: vis) < f := by omega
          have hfpos : 0 < f := by omega
          by_cases hkr : k = r
          · subst hkr
            obtain ⟨e, he, heap, hbp⟩ := hedge
            rw [hl] at he
            injection he with he
            subst he
            exact parents_in_visited_bp t f hfpos _ _ _ b hbp
          · refine closure_bp t f ih _ _ _ hfc1 k b hk ?_ hedge
            intro hmem
            rcases List.mem_cons.mp hmem with h | h
            · exact hkr h
            · exact hnv h

theorem least_bp (t : RoleInfoTable) (f : Nat) (S : List String)
    (hA : ∀ r vis, r ∈ S → ∀ k, k ∈ (buildAllPropsFuel t f r vis).2 → k ∉ vis → k ∈ S) :
    ∀ ps props vis, (∀ p, p ∈ ps → p ∈ S) →
      ∀ k, k ∈ (buildParentsFuel t f ps props vis).2 → k ∉ vis → k ∈ S := by
  intro ps
  induction ps with
  | nil =>
    intro props vis _ k hk hnv
    rw [buildParentsFuel_nil] at hk
    exact absurd hk hnv
  | cons p rest ih =>
    intro props vis hps k hk hnv
    rw [buildParentsFuel_cons] at hk
    by_cases hsub : k ∈ (buildAllPropsFuel t f p vis).2
    · exact hA p vis (hps p (List.mem_cons_self _ _)) k hsub hnv
    · exact ih _ _ (fun q hq => hps q (List.mem_cons_of_mem _ hq)) k hk hsub

theorem least_run (t : RoleInfoTable) (S : List String)
    (hS : ∀ a b, a ∈ S → ParentEdge t a b → b ∈ S) :
    ∀ f r vis, r ∈ S → ∀ k, k ∈ (buildAllPropsFuel t f r vis).2 → k ∉ vis → k ∈ S := by
  intro f
  induction f with
  | zero =>
    intro r vis _ k hk hnv
    rw [buildAllPropsFuel_zero] at hk
    exact absurd hk hnv
  | succ f ih =>
    intro r vis hr k hk hnv
    rw [buildAllPropsFuel_succ] at hk
    by_cases hcr : vis.contains r = true
    · rw [if_pos hcr] at hk
      exact absurd hk hnv
    · rw [if_neg hcr] at hk
      cases hl : t.lookup r with
      | none =>
        rw [hl] at hk
        dsimp only at hk
        rcases List.mem_cons.mp hk with h | h
        · subst h; exact hr
        · exact absurd h hnv
      | some role =>
        rw [hl] at hk
        dsimp only at hk
        cases hap : role.allprops with
        | some ap =>
          rw [hap] at hk
          dsimp only at hk
          rcases List.mem_cons.mp hk with h | h
          · subst h; exact hr
          · exact absurd h hnv
        | none =>
          rw [hap] at hk
          dsimp only at hk
          by_cases hkr : k = r
          · subst hkr; exact hr
          · refine least_bp t f S ih _ _ _ ?_ k hk ?_
            · intro p hp
              exact hS r p hr ⟨role, hl, hap, hp⟩
            · intro hmem
              rcases List.mem_cons.mp hmem with h | h
              · exact hkr h
              · exact hnv h

theorem stab_bp (t : RoleInfoTable) (g₁ g₂ bound : Nat)
    (hA : ∀ r vis, freshCount t vis ≤ bound → freshCount t vis < g₁ →
      freshCount t vis < g₂ →
      buildAllPropsFuel t g₁ r vis = buildAllPropsFuel t g₂ r vis) :
    ∀ ps props vis, freshCount t vis ≤ bound → freshCount t vis < g₁ →
      freshCount t vis < g₂ →
      buildParentsFuel t g₁ ps props vis = buildParentsFuel t g₂ ps props vis := by
  intro ps
  induction ps with
  | nil => intro props vis _ _ _; rw [buildParentsFuel_nil, buildParentsFuel_nil]
  | cons p rest ih =>
    intro props vis hb h1 h2
    rw [buildParentsFuel_cons, buildParentsFuel_cons, hA p vis hb h1 h2]
    have hm : ∀ x, x ∈ vis → x ∈ (buildAllPropsFuel t g₂ p vis).2 :=
      fun x hx => visited_mono t g₂ p vis x hx
    have hle := freshCount_mono t vis _ hm
    exact ih _ _ (le_trans hle hb) (lt_of_le_of_lt hle h1) (lt_of_le_of_lt hle h2)

theorem stab_run (t : RoleInfoTable) :
    ∀ n f₁ f₂ r vis, freshCount t vis ≤ n → freshCount t vis < f₁ →
      freshCount t vis < f₂ →
      buildAllPropsFuel t f₁ r vis = buildAllPropsFuel t f₂ r vis := by
  intro n
  induction n using Nat.strong_induction_on with
  | _ n ih =>
    intro f₁ f₂ r vis hn h1 h2
    obtain ⟨g₁, rfl⟩ : ∃ g, f₁ = g + 1 := ⟨f₁ - 1, by omega⟩
    obtain ⟨g₂, rfl⟩ : ∃ g, f₂ = g + 1 := ⟨f₂ - 1, by omega⟩
    rw [buildAllPropsFuel_succ, buildAllPropsFuel_succ]
    by_cases hcr : vis.contains r = true
    · rw [if_pos hcr, if_pos hcr]
    · rw [if_neg hcr, if_neg hcr]
      have hrnv : r ∉ vis := fun hmem => hcr ((contains_iff_mem vis r).mpr hmem)
      cases hl : t.lookup r with
      | none => rfl
      | some role =>
        dsimp only
        cases hap : role.allprops with
        | some ap => rfl
        | none =>
          dsimp only
          have hrk : r ∈ t.map Prod.fst := mem_keys_of_lookup t r role hl
          have hs : freshCount t (r :: vis) < freshCount t vis :=
            freshCount_strict t vis r hrk hrnv
          refine stab_bp t g₁ g₂ (freshCount t (r :: vis)) ?_ _ _ _
            (le_refl _) (by omega) (by omega)
          intro r' vis' ha hb hc
          exact ih (freshCount t (r :: vis)) (by omega) g₁ g₂ r' vis' ha hb hc

theorem hasName_iff_mem_names (l : List PropEntry) (n : String) :
    hasName l n = true ↔ n ∈ l.map PropEntry.name := by
  simp [hasName, List.any_eq_true, List.mem_map, beq_iff_eq]

theorem namesNodupB_iff (l : List PropEntry) :
    namesNodupB l = true ↔ (l.map PropEntry.name).Nodup := by
  induction l with
  | nil => simp [namesNodupB]
  | cons p rest ih =>
    rw [namesNodupB, Bool.and_eq_true, Bool.not_eq_true', List.map_cons, List.nodup_cons]
    rw [← ih]
    constructor
    · rintro ⟨h1, h2⟩
      refine ⟨?_, h2⟩
      intro hmem
      rw [← hasName_iff_mem_names] at hmem
      rw [hmem] at h1
      cases h1
    · rintro ⟨h1, h2⟩
      refine ⟨?_, h2⟩
      cases hc : hasName rest p.name
      · rfl
      · exact absurd ((hasName_iff_mem_names rest p.name).mp hc) h1

theorem mergeProps_of_nodup (b a : List PropEntry)
    (h : namesNodupB (a ++ b) = true) : mergeProps a b = a ++ b := by
  induction b generalizing a with
  | nil => simp [mergeProps_nil]
  | cons p rest ih =>
    have hnd := (namesNodupB_iff _).mp h
    rw [List.map_append, List.nodup_append] at hnd
    have hp : hasName a p.name = false := by
      cases hc : hasName a p.name
      · rfl
      · exfalso
        have h1 := (hasName_iff_mem_names a p.name).mp hc
        have h2 : p.name ∈ (p :: rest).map PropEntry.name := by
          rw [List.map_cons]; exact List.mem_cons_self _ _
        exact hnd.2.2 h1 h2
    rw [mergeProps_cons, if_neg (by rw [hp]; exact Bool.false_ne_true)]
    have hre : (a ++ [p]) ++ rest = a ++ p :: rest := by simp
    rw [ih (a ++ [p]) (by rw [hre]; exact h), hre]

theorem dedupByName_of_nodup (l : List PropEntry) (h : namesNodupB l = true) :
    dedupByName l = l := by
  unfold dedupByName
  exact mergeProps_of_nodup l [] (by simpa using h)

theorem dedupByName_nodup (l : List PropEntry) :
    namesNodupB (dedupByName l) = true :=
  mergeProps_nodup l [] rfl

theorem mergeProps_drop (b z a : List PropEntry)
    (h : ∀ n, hasName b n = true → hasName a n = true) :
    mergeProps a (b ++ z) = mergeProps a z := by
  induction b generalizing a with
  | nil => simp
  | cons p rest ih =>
    rw [List.cons_append, mergeProps_cons,
      if_pos (h p.name (hasName_self p rest)), ih]
    intro n hn
    refine h n ?_
    rw [hasName_cons, hn, Bool.or_true]

theorem mergeProps_absorb (v b a : List PropEntry)
    (h : ∀ n, hasName b n = true → hasName a n = true) :
    mergeProps a (mergeProps b v) = mergeProps a v := by
  induction v generalizing a b with
  | nil =>
    rw [mergeProps_nil]
    have := mergeProps_drop b [] a h
    simpa using this
  | cons p rest ih =>
    rw [mergeProps_cons, mergeProps_cons]
    by_cases hb : hasName b p.name = true
    · rw [if_pos hb, if_pos (h p.name hb)]
      exact ih b a h
    · rw [if_neg hb]
      by_cases ha : hasName a p.name = true
      · rw [if_pos ha]
        refine ih (b ++ [p]) a ?_
        intro n hn
        rw [hasName_append, Bool.or_eq_true_iff] at hn
        rcases hn with hn | hn
        · exact h n hn
        · simp only [hasName, List.any_cons, List.any_nil, Bool.or_false] at hn
          rw [← eq_of_beq hn]
          exact ha
      · rw [if_neg ha]
        obtain ⟨ext, hext⟩ := mergeProps_prefix rest (b ++ [p])
        rw [hext, List.append_assoc, mergeProps_drop b ([p] ++ ext) a h,
          List.singleton_append, mergeProps_cons, if_neg ha]
        have step : mergeProps (a ++ [p]) (mergeProps (b ++ [p]) rest) =
            mergeProps (a ++ [p]) rest := by
          refine ih (b ++ [p]) (a ++ [p]) ?_
          intro n hn
          rw [hasName_append, Bool.or_eq_true_iff] at hn ⊢
          rcases hn with hn | hn
          · exact Or.inl (h n hn)
          · exact Or.inr hn
        rw [hext, List.append_assoc, mergeProps_drop b ([p] ++ ext) (a ++ [p]) ?hsub,
          List.singleton_append, mergeProps_cons] at step
        case hsub =>
          intro n hn
          rw [hasName_append, Bool.or_eq_true_iff]
          exact Or.inl (h n hn)
        have hap : hasName (a ++ [p]) p.name = true := by
          rw [hasName_append, Bool.or_eq_true_iff]
          exact Or.inr (hasName_self p [])
        rw [if_pos hap] at step
        exact step.symm ▸ rfl

theorem mergeProps_dedup_right (a v : List PropEntry) :
    mergeProps a (dedupByName v) = mergeProps a v := by
  unfold dedupByName
  exact mergeProps_absorb v [] a (by intro n hn; cases hn)

theorem dedupByName_append (w v : List PropEntry) :
    dedupByName (w ++ v) = mergeProps (dedupByName w) v := by
  unfold dedupByName
  exact mergeProps_append w v []

theorem buildRawParentsFuel_nil (t : RoleInfoTable) (f : Nat)
    (props : List PropEntry) (visited : List String) :
    buildRawParentsFuel t f [] props visited = (props, visited) := rfl

theorem buildRawParentsFuel_cons (t : RoleInfoTable) (f : Nat) (p : String)
    (rest : List String) (props : List PropEntry) (visited : List String) :
    buildRawParentsFuel t f (p :: rest) props visited =
      buildRawParentsFuel t f rest
        (props ++ (buildRawFuel t f p visited).1)
        (buildRawFuel t f p visited).2 := rfl

theorem buildRawFuel_zero (t : RoleInfoTable) (r : String) (visited : List String) :
    buildRawFuel t 0 r visited = ([], visited) := rfl

theorem buildRawFuel_succ (t : RoleInfoTable) (f : Nat) (r : String)
    (visited : List String) :
    buildRawFuel t (f + 1) r visited =
      if visited.contains r then ([], visited)
      else
        match t.lookup r with
        | none => ([], r :: visited)
        | some role =>
          match role.allprops with
          | some ap => (ap, r :: visited)
          | none =>
            buildRawParentsFuel t f (role.parentRoles.getD [])
              (role.localprops.getD []) (r :: visited) := rfl

theorem rawvis_bp (t : RoleInfoTable) (f : Nat)
    (hA : ∀ r vis, (buildAllPropsFuel t f r vis).2 = (buildRawFuel t f r vis).2) :
    ∀ ps props₁ props₂ vis,
      (buildParentsFuel t f ps props₁ vis).2 = (buildRawParentsFuel t f ps props₂ vis).2 := by
  intro ps
  induction ps with
  | nil => intro props₁ props₂ vis; rw [buildParentsFuel_nil, buildRawParentsFuel_nil]
  | cons p rest ih =>
    intro props₁ props₂ vis
    rw [buildParentsFuel_cons, buildRawParentsFuel_cons, hA p vis]
    exact ih _ _ _

theorem rawvis_run (t : RoleInfoTable) :
    ∀ f r vis, (buildAllPropsFuel t f r vis).2 = (buildRawFuel t f r vis).2 := by
  intro f
  induction f with
  | zero => intro r vis; rw [buildAllPropsFuel_zero, buildRawFuel_zero]
  | succ f ih =>
    intro r vis
    rw [buildAllPropsFuel_succ, buildRawFuel_succ]
    by_cases hcr : vis.contains r = true
    · rw [if_pos hcr, if_pos hcr]
    · rw [if_neg hcr, if_neg hcr]
      cases hl : t.lookup r with
      | none => rfl
      | some role =>
        dsimp only
        cases hap : role.allprops with
        | some ap => rfl
        | none =>
          dsimp only
          exact rawvis_bp t f ih _ _ _ _

theorem wf_entry (t : RoleInfoTable) (hwf : wfTable t = true) (r : String)
    (e : RoleEntry) (h : t.lookup r = some e) :
    namesNodupB (e.localprops.getD []) = true ∧
    (∀ ap, e.allprops = some ap → namesNodupB ap = true) := by
  have hmem := lookup_mem_pair t r e h
  have hall := List.all_eq_true.mp hwf _ hmem
  rw [Bool.and_eq_true] at hall
  refine ⟨hall.1, ?_⟩
  intro ap hap
  have := hall.2
  rw [hap] at this
  exact this

theorem dedup_bp (t : RoleInfoTable) (f : Nat)
    (hA2 : ∀ r vis, (buildAllPropsFuel t f r vis).1 = dedupByName ((buildRawFuel t f r vis).1)) :
    ∀ ps w vis,
      (buildParentsFuel t f ps (dedupByName w) vis).1 =
        dedupByName ((buildRawParentsFuel t f ps w vis).1) := by
  intro ps
  induction ps with
  | nil => intro w vis; rw [buildParentsFuel_nil, buildRawParentsFuel_nil]
  | cons p rest ih =>
    intro w vis
    rw [buildParentsFuel_cons, buildRawParentsFuel_cons, hA2 p vis,
      mergeProps_dedup_right, ← dedupByName_append, rawvis_run t f p vis]
    exact ih _ _

theorem dedup_run (t : RoleInfoTable) (hwf : wfTable t = true) :
    ∀ f r vis,
      (buildAllPropsFuel t f r vis).1 = dedupByName ((buildRawFuel t f r vis).1) := by
  intro f
  induction f with
  | zero => intro r vis; rw [buildAllPropsFuel_zero, buildRawFuel_zero]; rfl
  | succ f ih =>
    intro r vis
    rw [buildAllPropsFuel_succ, buildRawFuel_succ]
    by_cases hcr : vis.contains r = true
    · rw [if_pos hcr, if_pos hcr]; rfl
    · rw [if_neg hcr, if_neg hcr]
      cases hl : t.lookup r with
      | none => rfl
      | some role =>
        dsimp only
        cases hap : role.allprops with
        | some ap =>
          dsimp only
          have hnd := (wf_entry t hwf r role hl).2 ap hap
          rw [dedupByName_of_nodup ap hnd]
        | none =>
          dsimp only
          have hnd := (wf_entry t hwf r role hl).1
          conv_lhs =>
            rw [show role.localprops.getD [] = dedupByName (role.localprops.getD []) from
              (dedupByName_of_nodup _ hnd).symm]
          exact dedup_bp t f ih _ _ _

theorem find?_mergeProps (v a : List PropEntry) (n : String) :
    (mergeProps a v).find? (fun p => p.name == n) =
      (a ++ v).find? (fun p => p.name == n) := by
  induction v generalizing a with
  | nil => simp [mergeProps_nil]
  | cons p rest ih =>
    by_cases hp : hasName a p.name = true
    · rw [mergeProps_cons, if_pos hp, ih]
      rw [List.find?_append, List.find?_append]
      by_cases he : (p.name == n) = true
      · have hn : hasName a n = true := by rw [← eq_of_beq he]; exact hp
        have hex : ∃ x ∈ a, (fun q => q.name == n) x = true := by
          simpa [hasName, List.any_eq_true] using hn
        have hsome := List.find?_isSome.mpr hex
        obtain ⟨y, hy⟩ := Option.isSome_iff_exists.mp hsome
        rw [hy]
        rfl
      · have he' : (p.name == n) = false := by
          cases h2 : (p.name == n)
          · rfl
          · exact absurd h2 he
        rw [List.find?_cons_of_neg _ (by rw [he']; exact Bool.false_ne_true)]
    · rw [mergeProps_cons, if_neg hp, ih]
      rw [show (a ++ [p]) ++ rest = a ++ p :: rest by simp]

theorem find?_dedupByName (l : List PropEntry) (n : String) :
    (dedupByName l).find? (fun p => p.name == n) =
      l.find? (fun p => p.name == n) := by
  unfold dedupByName
  rw [find?_mergeProps]
  rfl

theorem freshCount_nil (t : RoleInfoTable) : freshCount t [] = t.length := by
  unfold freshCount
  have h : (t.map Prod.fst).filter (fun k => !([] : List String).contains k) =
      t.map Prod.fst :=
    List.filter_eq_self.mpr (fun a _ => rfl)
  rw [h, List.length_map]

/-- C4: the resolver is total on every finite table, cycles included: the
fuel-indexed embedding is fuel-independent once the fuel exceeds the
number of not-yet-visited table keys (so the recursion of the script,
whose depth is bounded by that number, terminates with a finite list),
and a role already in the visited set resolves to the empty list. -/
theorem buildAllProps_terminates :
    (∀ (t : RoleInfoTable) (f₁ f₂ : Nat) (r : String) (vis : List String),
      freshCount t vis < f₁ → freshCount t vis < f₂ →
      buildAllPropsFuel t f₁ r vis = buildAllPropsFuel t f₂ r vis)
    ∧ (∀ (t : RoleInfoTable) (f : Nat) (r : String) (vis : List String),
      0 < f → vis.contains r = true → buildAllPropsFuel t f r vis = ([], vis)) := by
  constructor
  · intro t f₁ f₂ r vis h1 h2
    exact stab_run t (freshCount t vis) f₁ f₂ r vis (le_refl _) h1 h2
  · intro t f r vis hf hc
    cases f with
    | zero => omega
    | succ f => rw [buildAllPropsFuel_succ, if_pos hc]

theorem buildAllProps_terminates_witness :
    buildAllPropsFuel cycTable 3 "a" [] = buildAllPropsFuel cycTable 7 "a" []
    ∧ buildAllPropsFuel cycTable 3 "a" ["a"] = ([], ["a"]) :=
  ⟨buildAllProps_terminates.1 cycTable 3 7 "a" [] (by decide) (by decide),
   buildAllProps_terminates.2 cycTable 3 "a" ["a"] (by decide) (by decide)⟩

/-- C1 counterexample: in `cexTableC1` the role `r` has the nonempty
parent list `["p"]` and the parent graph is acyclic, yet
`buildAllProps(r)` (the precomputed `allprops`, returned verbatim) does
not contain the parent's `aria-label`; and in `cexTableC1b` the role `r`
(again nonempty parents, acyclic) resolves to a list with a duplicated
property name, because its own `localprops` are copied without
de-duplication. -/
theorem buildAllProps_superset_counterexample :
    (hasName (buildAllProps cexTableC1 "p") "aria-label" = true
      ∧ hasName (buildAllProps cexTableC1 "r") "aria-label" = false)
    ∧ namesNodupB (buildAllProps cexTableC1b "r") = false := by decide

/-- C1 (amended): for every table whose entries carry no duplicate
property names of their own and every role `R` of the table whose entry
has no precomputed `allprops` list, the resolved list of `R` contains by
name everything the resolution of each declared parent `P` returns, and
contains no duplicate names.  (The amendment adds the two hypotheses the
counterexample forces; the no-cycle assumption of the original claim is
not needed.) -/
theorem buildAllProps_superset_amended (t : RoleInfoTable) (R P : String)
    (e : RoleEntry) (hwf : wfTable t = true) (hR : t.lookup R = some e)
    (hap : e.allprops = none) (hP : P ∈ e.parentRoles.getD []) :
    namesSubset (buildAllProps t P) (buildAllProps t R) = true
    ∧ namesNodupB (buildAllProps t R) = true := by
  have hfc : freshCount t [] < t.length + 1 := by
    rw [freshCount_nil]
    omega
  constructor
  · rw [namesSubset, List.all_eq_true]
    intro p hp
    have hhas : hasName (buildAllProps t P) p.name = true := by
      rw [hasName, List.any_eq_true]
      exact ⟨p, hp, by simp⟩
    unfold buildAllProps at hhas ⊢
    obtain ⟨k, hk1, _, hk3⟩ := source_run t (t.length + 1) P [] p.name hhas
    have hclosed : ∀ a b, a ∈ (buildAllPropsFuel t (t.length + 1) R []).2 →
        ParentEdge t a b → b ∈ (buildAllPropsFuel t (t.length + 1) R []).2 := by
      intro a b ha he
      exact closure_run t (t.length + 1) R [] hfc a b ha (by simp) he
    have hRmem : R ∈ (buildAllPropsFuel t (t.length + 1) R []).2 :=
      expand_mem t (t.length + 1) R [] (by omega)
    have hPmem : P ∈ (buildAllPropsFuel t (t.length + 1) R []).2 :=
      hclosed R P hRmem ⟨e, hR, hap, hP⟩
    have hkR : k ∈ (buildAllPropsFuel t (t.length + 1) R []).2 :=
      least_run t _ hclosed (t.length + 1) P [] hPmem k hk1 (by simp)
    exact contrib_run t (t.length + 1) R [] p.name k hkR (by simp) hk3
  · unfold buildAllProps
    rw [dedup_run t hwf (t.length + 1) R []]
    exact dedupByName_nodup _

theorem buildAllProps_superset_amended_witness :
    namesSubset (buildAllProps witTable "checkbox") (buildAllProps witTable "switch") = true
    ∧ namesNodupB (buildAllProps witTable "switch") = true :=
  buildAllProps_superset_amended witTable "switch" "checkbox"
    { parentRoles := some ["checkbox"]
      localprops := some [⟨"aria-checked", true⟩]
      allprops := none }
    (by decide) (by decide) rfl (by decide)

/-- C3 counterexample: a table entry with duplicated local property
names yields a resolved list with two entries of the same name — the
resolver copies the role's own list without de-duplicating it. -/
theorem buildAllProps_dedup_counterexample :
    namesNodupB (buildAllProps cexTableC3 "r") = false := by decide

/-- C3 (amended): over tables whose entries carry no duplicate property
names of their own, the resolver's output is exactly the keep-the-first
name-deduplication of the raw recursive pre-order concatenation (local
properties first, then each declared parent in order, under the shared
visited set): so for each property name, the first pre-order occurrence
is kept as a whole record — later duplicates are dropped, never merged
or overwritten — and the output has no duplicate names. -/
theorem buildAllProps_dedup_amended (t : RoleInfoTable) (r : String)
    (hwf : wfTable t = true) :
    buildAllProps t r = dedupByName (buildRaw t r)
    ∧ (∀ n : String, (buildAllProps t r).find? (fun p => p.name == n) =
        (buildRaw t r).find? (fun p => p.name == n))
    ∧ namesNodupB (buildAllProps t r) = true := by
  have h1 : buildAllProps t r = dedupByName (buildRaw t r) :=
    dedup_run t hwf (t.length + 1) r []
  refine ⟨h1, ?_, ?_⟩
  · intro n
    rw [h1, find?_dedupByName]
  · rw [h1]
    exact dedupByName_nodup _

theorem buildAllProps_dedup_amended_witness :
    buildAllProps witTable "switch" = dedupByName (buildRaw witTable "switch")
    ∧ (buildAllProps witTable "switch").find? (fun p => p.name == "aria-checked") =
        (buildRaw witTable "switch").find? (fun p => p.name == "aria-checked")
    ∧ namesNodupB (buildAllProps witTable "switch") = true :=
  ⟨(buildAllProps_dedup_amended witTable "switch" (by decide)).1,
   (buildAllProps_dedup_amended witTable "switch" (by decide)).2.1 "aria-checked",
   (buildAllProps_dedup_amended witTable "switch" (by decide)).2.2⟩

theorem mem_insortStr (x a : String) (l : List String) :
    a ∈ insortStr x l ↔ a = x ∨ a ∈ l := by
  induction l with
  | nil => simp [insortStr]
  | cons y ys ih =>
    rw [insortStr]
    by_cases hle : strLeJ x y = true
    · rw [if_pos hle]
      simp [List.mem_cons]
    · rw [if_neg hle]
      simp only [List.mem_cons, ih]
      tauto

theorem mem_sortStrings (l : List String) (a : String) :
    a ∈ sortStrings l ↔ a ∈ l := by
  unfold sortStrings
  induction l with
  | nil => simp
  | cons x xs ih =>
    rw [List.foldr_cons, mem_insortStr, ih, List.mem_cons]

theorem mem_keys_of_lookup_any {α : Type} (l : List (String × α)) (k : String)
    (v : α) (h : l.lookup k = some v) : k ∈ l.map Prod.fst :=
  List.mem_map.mpr ⟨(k, v), lookup_mem_pair l k v h, rfl⟩

/-- C2 counterexample: an attribute whose applicability cell reads
`Any element` is not marked global — the code tests for the substring
`all elements`, which `any element` does not contain — so it is missing
from `globalStatesAndProperties`, while the primary document's actual
phrasing `All elements of the base markup` is indexed and a
`button, link` cell is not. -/
theorem globalIndex_counterexample :
    ("aria-foo" ∈ globalIndexOf (parseStatesAndProperties [anyElementDiv]) → False)
    ∧ (parseAttr "aria-foo" anyElementDiv).isGlobal = false
    ∧ "aria-live" ∈
        globalIndexOf (parseStatesAndProperties [allElementsDiv, anyElementDiv, buttonLinkDiv])
    ∧ ("aria-bar" ∈
        globalIndexOf (parseStatesAndProperties [allElementsDiv, anyElementDiv, buttonLinkDiv])
        → False) := by decide

/-- C2 (amended): an attribute name appears in the assembled
`globalStatesAndProperties` index exactly when the attribute assembled
for that name has its `isGlobal` flag set, and an applicability row (one
whose header contains `used in role` or `applicable to` and none of the
phrases of the earlier chain branches) raises `isGlobal` exactly when the
cell text, lower-cased, contains the substring `all elements` — the
code's reading of "signals applicability to all elements"; a cell
reading `Any element` therefore does not qualify, `All elements of the
base markup` does. -/
theorem globalIndex_amended :
    (∀ (divs : List AttrDiv) (n : String),
      n ∈ globalIndexOf (parseStatesAndProperties divs) ↔
        (match (parseStatesAndProperties divs).lookup n with
         | some a => a.isGlobal
         | none => false) = true)
    ∧ (∀ (attr : AttrRec) (row : RowData),
        strIncludes (lowerStr (cleanText row.header)) "value type" = false →
        strIncludes (lowerStr (cleanText row.header)) "value" = false →
        strIncludes (lowerStr (cleanText row.header)) "default" = false →
        (strIncludes (lowerStr (cleanText row.header)) "used in role" = true ∨
         strIncludes (lowerStr (cleanText row.header)) "applicable to" = true) →
        (applyAttrRow attr row).isGlobal =
          (attr.isGlobal || strIncludes (lowerStr (cleanText row.cellText)) "all elements")) := by
  constructor
  · intro divs n
    unfold globalIndexOf
    rw [mem_sortStrings, List.mem_filter]
    constructor
    · exact fun h => h.2
    · intro h
      refine ⟨?_, h⟩
      cases hl : (parseStatesAndProperties divs).lookup n with
      | none => rw [hl] at h; cases h
      | some a => exact mem_keys_of_lookup_any _ n a hl
  · intro attr row h1 h2 h3 h4
    simp only [applyAttrRow, h1, h2, h3]
    rcases h4 with h4 | h4 <;> simp [h4]

theorem globalIndex_amended_witness :
    ("aria-live" ∈ globalIndexOf (parseStatesAndProperties [allElementsDiv]) ↔
      (match (parseStatesAndProperties [allElementsDiv]).lookup "aria-live" with
       | some a => a.isGlobal
       | none => false) = true)
    ∧ (applyAttrRow
        { name := "aria-live", type := "property", description := "d" }
        ⟨"Used in Roles:", "All elements of the base markup", [], [], []⟩).isGlobal =
      (false || strIncludes
        (lowerStr (cleanText "All elements of the base markup")) "all elements") :=
  ⟨globalIndex_amended.1 [allElementsDiv] "aria-live",
   globalIndex_amended.2
     { name := "aria-live", type := "property", description := "d" }
     ⟨"Used in Roles:", "All elements of the base markup", [], [], []⟩
     (by decide) (by decide) (by decide) (Or.inl (by decide))⟩

theorem lookup_updateAssoc_ne {α : Type} (m : List (String × α)) (k k' : String)
    (f : α → α) (hne : k' ≠ k) :
    (updateAssoc m k f).lookup k' = m.lookup k' := by
  induction m with
  | nil => rfl
  | cons kv rest ih =>
    obtain ⟨a, b⟩ := kv
    unfold updateAssoc at ih ⊢
    rw [List.map_cons]
    by_cases hak : (a == k) = true
    · rw [if_pos hak]
      dsimp only
      rw [List.lookup, List.lookup]
      have : (k' == a) = false := by
        rw [beq_eq_false_iff_ne]
        intro he
        exact hne (he.trans (eq_of_beq hak))
      rw [this, ih]
    · rw [if_neg hak]
      rw [List.lookup, List.lookup]
      by_cases hk'a : (k' == a) = true
      · rw [hk'a]
      · have : (k' == a) = false := by
          cases h2 : (k' == a)
          · rfl
          · exact absurd h2 hk'a
        rw [this, ih]

theorem mergeStep_lookup_untouched (tbl : RoleInfoTable)
    (l : List (String × RoleEntry)) (acc : List (String × AriaRole)) (n : String)
    (h : n ∉ l.map Prod.fst) :
    (l.foldl (mergeStep tbl) acc).lookup n = acc.lookup n := by
  induction l generalizing acc with
  | nil => rfl
  | cons kv rest ih =>
    rw [List.map_cons, List.mem_cons] at h
    push_neg at h
    rw [List.foldl_cons, ih _ h.2]
    unfold mergeStep
    cases hl : acc.lookup kv.1 with
    | none => rfl
    | some r =>
      dsimp only
      exact lookup_updateAssoc_ne acc kv.1 n _ h.1

/-- C5 counterexample: with the primary role `foo` (prose superclass
`bar`) absent from the structured table, the merged record still has
`allProps` absent (`none`), not the empty list, while its prose
superclasses are untouched — the serialized record simply has no
`allProps` key. -/
theorem mergeRoleInfo_counterexample :
    ((mergeRoleInfoIntoRoles rolesC5 infoC5).lookup "foo").map AriaRole.allProps =
      some none
    ∧ ((mergeRoleInfoIntoRoles rolesC5 infoC5).lookup "foo").map AriaRole.superclassRoles =
      some ["bar"]
    ∧ some (none : Option (List PropEntry)) ≠ some (some ([] : List PropEntry)) := by
  decide

/-- C5 (amended): a primary role whose name is absent from the
structured inheritance table passes through the merge completely
unchanged — its `allProps`/`localProps`/`parentRoles` fields are never
set (they stay absent, not empty), and the prose-derived
`superclassRoles` are never consulted to resolve properties; had the
resolver been asked for such a name, it would return the empty list. -/
theorem mergeRoleInfo_absent_amended (roles : List (String × AriaRole))
    (info : RoleInfoTable) (n : String)
    (h : (info.map Prod.fst).contains n = false) :
    (mergeRoleInfoIntoRoles roles info).lookup n = roles.lookup n
    ∧ buildAllProps info n = [] := by
  have hnm : n ∉ info.map Prod.fst := by
    intro hmem
    rw [← contains_iff_mem] at hmem
    rw [hmem] at h
    cases h
  constructor
  · exact mergeStep_lookup_untouched info info roles n hnm
  · unfold buildAllProps
    rw [show info.length + 1 = info.length + 1 from rfl, buildAllPropsFuel_succ]
    rw [if_neg (by simp), lookup_none_of_not_mem_keys info n hnm]

theorem mergeRoleInfo_absent_amended_witness :
    (mergeRoleInfoIntoRoles rolesC5 infoC5).lookup "foo" = rolesC5.lookup "foo"
    ∧ buildAllProps infoC5 "foo" = [] :=
  mergeRoleInfo_absent_amended rolesC5 infoC5 "foo" (by decide)

theorem pushCat_mem (cs : RoleCats) (c' c : CatKind) (m n : String) :
    n ∈ catListOf (pushCat cs c' m) c ↔
      n ∈ catListOf cs c ∨ (c = c' ∧ n = m) := by
  cases c <;> cases c' <;>
    simp [pushCat, catListOf, List.mem_append]

theorem cat_fold_mem (rs : List (String × AriaRole)) :
    ∀ (acc : RoleCats × List (String × AriaRole)) (n : String) (c : CatKind),
      n ∈ catListOf (rs.foldl catStep acc).1 c ↔
        n ∈ catListOf acc.1 c ∨ ∃ r, (n, r) ∈ rs ∧ categoryOf n r = c := by
  induction rs with
  | nil => intro acc n c; simp
  | cons kv rest ih =>
    intro acc n c
    rw [List.foldl_cons, ih]
    unfold catStep
    rw [pushCat_mem]
    constructor
    · rintro ((h | ⟨hc, hn⟩) | ⟨r, hr, hcat⟩)
      · exact Or.inl h
      · subst hn
        exact Or.inr ⟨kv.2, List.mem_cons_self _ _, by rw [hc]⟩
      · exact Or.inr ⟨r, List.mem_cons_of_mem _ hr, hcat⟩
    · rintro (h | ⟨r, hr, hcat⟩)
      · exact Or.inl (Or.inl h)
      · rcases List.mem_cons.mp hr with h | h
        · have h1 : n = kv.1 := congrArg Prod.fst h
          have h2 : r = kv.2 := congrArg Prod.snd h
          subst h2
          exact Or.inl (Or.inr ⟨by rw [← hcat, h1], h1⟩)
        · exact Or.inr ⟨r, h, hcat⟩

theorem cat_fold_roles (rs : List (String × AriaRole)) :
    ∀ acc : RoleCats × List (String × AriaRole),
      (rs.foldl catStep acc).2 =
        acc.2 ++ rs.map (fun kv =>
          (kv.1, { kv.2 with category := some (catName (categoryOf kv.1 kv.2)) })) := by
  induction rs with
  | nil => intro acc; simp
  | cons kv rest ih =>
    intro acc
    rw [List.foldl_cons, ih, List.map_cons]
    unfold catStep
    simp

theorem mem_lookup_unique {α : Type} (l : List (String × α)) (n : String)
    (r r' : α) (hnd : (l.map Prod.fst).Nodup) (hmem : (n, r') ∈ l)
    (hlk : l.lookup n = some r) : r' = r := by
  induction l with
  | nil => cases hmem
  | cons kv rest ih =>
    obtain ⟨a, b⟩ := kv
    rw [List.map_cons, List.nodup_cons] at hnd
    rw [List.lookup] at hlk
    rcases List.mem_cons.mp hmem with h | h
    · have h1 : n = a := congrArg Prod.fst h
      have h2 : r' = b := congrArg Prod.snd h
      subst h1
      rw [show (n == n) = true from by simp] at hlk
      simp at hlk
      rw [h2, hlk]
    · have hna : (n == a) = false := by
        rw [beq_eq_false_iff_ne]
        intro he
        subst he
        exact hnd.1 (List.mem_map.mpr ⟨(n, r'), h, rfl⟩)
      rw [hna] at hlk
      exact ih hnd.2 h hlk

theorem lookup_of_mem_nodup {α : Type} (l : List (String × α)) (n : String)
    (r : α) (hnd : (l.map Prod.fst).Nodup) (hmem : (n, r) ∈ l) :
    l.lookup n = some r := by
  induction l with
  | nil => cases hmem
  | cons kv rest ih =>
    obtain ⟨a, b⟩ := kv
    rw [List.map_cons, List.nodup_cons] at hnd
    rw [List.lookup]
    rcases List.mem_cons.mp hmem with h | h
    · have h1 : n = a := congrArg Prod.fst h
      have h2 : r = b := congrArg Prod.snd h
      subst h1
      rw [show (n == n) = true from by simp, h2]
    · have hna : (n == a) = false := by
        rw [beq_eq_false_iff_ne]
        intro he
        subst he
        exact hnd.1 (List.mem_map.mpr ⟨(n, r), h, rfl⟩)
      rw [hna]
      exact ih hnd.2 h

theorem lookup_cat_map (l : List (String × AriaRole)) (n : String) :
    (l.map (fun kv =>
      (kv.1, { kv.2 with category := some (catName (categoryOf kv.1 kv.2)) }))).lookup n =
    (l.lookup n).map (fun r =>
      { r with category := some (catName (categoryOf n r)) }) := by
  induction l with
  | nil => rfl
  | cons kv rest ih =>
    obtain ⟨a, b⟩ := kv
    rw [List.map_cons, List.lookup, List.lookup]
    by_cases hna : (n == a) = true
    · rw [hna]
      have : n = a := eq_of_beq hna
      subst this
      rfl
    · have h2 : (n == a) = false := by
        cases h3 : (n == a)
        · rfl
        · exact absurd h3 hna
      rw [h2, ih]

/-- C6: `categorizeRoles` assigns every role of the map to exactly one
category of the fixed seven, by the chain abstract (flag or static
list), landmark, liveRegion, window, composite, widget, then `document`
as the default, first match winning: a name appears in the list of a
category exactly when that category is the one the ordered chain
computes for it (so it appears in exactly one list, since `categoryOf`
is a function into the closed inductive type of the seven categories). -/
theorem categorizeRoles_partition (roles : List (String × AriaRole))
    (n : String) (r : AriaRole) (hnd : (roles.map Prod.fst).Nodup)
    (hlk : roles.lookup n = some r) (c : CatKind) :
    n ∈ catListOf (categorizeRoles roles).1 c ↔ c = categoryOf n r := by
  unfold categorizeRoles
  rw [cat_fold_mem]
  constructor
  · rintro (h | ⟨r', hr', hcat⟩)
    · cases c <;> cases h
    · rw [mem_lookup_unique roles n r r' hnd hr' hlk] at hcat
      exact hcat.symm
  · intro h
    exact Or.inr ⟨r, lookup_mem_pair roles n r hlk, h.symm⟩

theorem categorizeRoles_partition_witness :
    ("banner" ∈ catListOf (categorizeRoles rolesC6).1 CatKind.landmark ↔
      CatKind.landmark = categoryOf "banner" { name := "banner", description := "" })
    ∧ ("customthing" ∈ catListOf (categorizeRoles rolesC6).1 CatKind.document ↔
      CatKind.document = categoryOf "customthing" { name := "customthing", description := "" }) :=
  ⟨categorizeRoles_partition rolesC6 "banner" { name := "banner", description := "" }
     (by decide) (by decide) CatKind.landmark,
   categorizeRoles_partition rolesC6 "customthing" { name := "customthing", description := "" }
     (by decide) (by decide) CatKind.document⟩

/-- C10: after categorization the per-role `category` field and the
category index agree: every name listed under a category `c` looks up to
a role record whose `category` field is the string of `c`, and every
role record is updated with exactly one category value, the one computed
by the ordered chain — an invariant over the dataset's `roles` /
`roleCategories` pair. -/
theorem categorizeRoles_consistent (roles : List (String × AriaRole))
    (hnd : (roles.map Prod.fst).Nodup) :
    (∀ (c : CatKind) (n : String), n ∈ catListOf (categorizeRoles roles).1 c →
      ∃ r', (categorizeRoles roles).2.lookup n = some r'
        ∧ r'.category = some (catName c))
    ∧ (∀ (n : String) (r : AriaRole), roles.lookup n = some r →
      (categorizeRoles roles).2.lookup n =
        some { r with category := some (catName (categoryOf n r)) }) := by
  have hlk2 : ∀ (n : String) (r : AriaRole), roles.lookup n = some r →
      (categorizeRoles roles).2.lookup n =
        some { r with category := some (catName (categoryOf n r)) } := by
    intro n r hlk
    have hsnd : (categorizeRoles roles).2 =
        roles.map (fun kv =>
          (kv.1, { kv.2 with category := some (catName (categoryOf kv.1 kv.2)) })) := by
      unfold categorizeRoles
      rw [cat_fold_roles]
      rfl
    rw [hsnd, lookup_cat_map, hlk]
    rfl
  refine ⟨?_, hlk2⟩
  intro c n hmem
  unfold categorizeRoles at hmem
  rw [cat_fold_mem] at hmem
  rcases hmem with h | ⟨r, hr, hcat⟩
  · cases c <;> cases h
  · have hlk : roles.lookup n = some r := lookup_of_mem_nodup roles n r hnd hr
    refine ⟨{ r with category := some (catName (categoryOf n r)) }, hlk2 n r hlk, ?_⟩
    rw [hcat]

theorem categorizeRoles_consistent_witness :
    (∃ r', (categorizeRoles rolesC6).2.lookup "switch" = some r'
      ∧ r'.category = some (catName CatKind.widget))
    ∧ (categorizeRoles rolesC6).2.lookup "banner" =
      some { name := "banner", description := "",
             category := some (catName (categoryOf "banner" { name := "banner", description := "" })) } :=
  ⟨(categorizeRoles_consistent rolesC6 (by decide)).1 CatKind.widget "switch" (by decide),
   (categorizeRoles_consistent rolesC6 (by decide)).2 "banner"
     { name := "banner", description := "" } (by decide)⟩

/-- C7: the pipeline aborts without producing a dataset exactly on a
missing primary document; each optional source that is missing (or, for
the embedded table, unparseable) contributes an empty collection plus a
warning while the run continues and the sections from the primary
document are still populated.  ("Unparseable" primary input has no
counterpart here: the HTML parser is error-correcting and the script
only tests for the file's existence, line 443.) -/
theorem pipeline_error_handling :
    (∀ env : ParseEnv, env.ariaDoc = none → (mainPipeline env).2 = none)
    ∧ (∀ (env : ParseEnv) (doc : AriaDoc), env.ariaDoc = some doc →
        ∃ d, (mainPipeline env).2 = some d
          ∧ d.states =
              (parseStatesAndProperties doc.attrDivs).filter (fun kv => kv.2.type == "state")
          ∧ d.properties =
              (parseStatesAndProperties doc.attrDivs).filter (fun kv => !(kv.2.type == "state"))
          ∧ (env.dpubDoc = none → d.extensions.dpub = []
              ∧ "dpub-aria/index.html not found" ∈ (mainPipeline env).1)
          ∧ (env.graphicsDoc = none → d.extensions.graphics = []
              ∧ "graphics-aria/index.html not found" ∈ (mainPipeline env).1)
          ∧ (env.htmlAamDoc = none → d.htmlMappings = []
              ∧ "html-aam/index.html not found" ∈ (mainPipeline env).1)
          ∧ (env.accnameDoc = none → d.accname = none
              ∧ "accname/index.html not found" ∈ (mainPipeline env).1)
          ∧ (env.roleInfoSrc = none →
              d.roles = (categorizeRoles (parseRoles doc.roleDivs)).2
              ∧ "roleInfo.js not found, skipping" ∈ (mainPipeline env).1)
          ∧ (env.roleInfoSrc = some none →
              d.roles = (categorizeRoles (parseRoles doc.roleDivs)).2
              ∧ "Could not parse roleInfo.js" ∈ (mainPipeline env).1)) := by
  constructor
  · intro env h
    obtain ⟨ad, ris, acc, ham, dp, gr, nw⟩ := env
    simp only at h
    subst h
    rfl
  · intro env doc h
    obtain ⟨ad, ris, acc, ham, dp, gr, nw⟩ := env
    simp only at h
    subst h
    refine ⟨_, rfl, rfl, rfl, ?_, ?_, ?_, ?_, ?_, ?_⟩
    · intro h'
      simp only at h'
      subst h'
      exact ⟨rfl, by simp [mainPipeline, parseDpubAria, List.mem_append]⟩
    · intro h'
      simp only at h'
      subst h'
      exact ⟨rfl, by simp [mainPipeline, parseGraphicsAria, List.mem_append]⟩
    · intro h'
      simp only at h'
      subst h'
      exact ⟨rfl, by simp [mainPipeline, parseHtmlAam, List.mem_append]⟩
    · intro h'
      simp only at h'
      subst h'
      exact ⟨rfl, by simp [mainPipeline, parseAccName, List.mem_append]⟩
    · intro h'
      simp only at h'
      subst h'
      exact ⟨rfl, by simp [mainPipeline, parseRoleInfoJS, List.mem_append]⟩
    · intro h'
      simp only at h'
      subst h'
      exact ⟨rfl, by simp [mainPipeline, parseRoleInfoJS, List.mem_append]⟩

theorem pipeline_error_handling_witness :
    (mainPipeline envFatal).2 = none
    ∧ (∃ d, (mainPipeline envDegraded).2 = some d
        ∧ d.states =
            (parseStatesAndProperties [allElementsDiv]).filter (fun kv => kv.2.type == "state")
        ∧ d.properties =
            (parseStatesAndProperties [allElementsDiv]).filter (fun kv => !(kv.2.type == "state"))
        ∧ (envDegraded.dpubDoc = none → d.extensions.dpub = []
            ∧ "dpub-aria/index.html not found" ∈ (mainPipeline envDegraded).1)
        ∧ (envDegraded.graphicsDoc = none → d.extensions.graphics = []
            ∧ "graphics-aria/index.html not found" ∈ (mainPipeline envDegraded).1)
        ∧ (envDegraded.htmlAamDoc = none → d.htmlMappings = []
            ∧ "html-aam/index.html not found" ∈ (mainPipeline envDegraded).1)
        ∧ (envDegraded.accnameDoc = none → d.accname = none
            ∧ "accname/index.html not found" ∈ (mainPipeline envDegraded).1)
        ∧ (envDegraded.roleInfoSrc = none →
            d.roles = (categorizeRoles (parseRoles [⟨some "switch", "a switch", []⟩])).2
            ∧ "roleInfo.js not found, skipping" ∈ (mainPipeline envDegraded).1)
        ∧ (envDegraded.roleInfoSrc = some none →
            d.roles = (categorizeRoles (parseRoles [⟨some "switch", "a switch", []⟩])).2
            ∧ "Could not parse roleInfo.js" ∈ (mainPipeline envDegraded).1)) :=
  ⟨pipeline_error_handling.1 envFatal rfl,
   pipeline_error_handling.2 envDegraded
     { roleDivs := [⟨some "switch", "a switch", []⟩], attrDivs := [allElementsDiv] } rfl⟩

/-- C8: extracting extension-module roles never adds to, removes from,
or modifies the primary role map — the dataset's `roles` field is the
same whatever the module documents contain — and module roles live only
in the module-scoped `extensions` collections, each computed from its
own document; concretely, two modules each defining `doc-example` while
the primary document also defines `doc-example` yield three distinct
records in three distinct collections, none overwriting another. -/
theorem modules_isolated :
    (∀ (env : ParseEnv) (d₁ d₂ g₁ g₂ : Option (List ModuleDiv)),
      ((mainPipeline { env with dpubDoc := d₁, graphicsDoc := g₁ }).2).map AriaDataset.roles =
      ((mainPipeline { env with dpubDoc := d₂, graphicsDoc := g₂ }).2).map AriaDataset.roles)
    ∧ (∀ (env : ParseEnv) (doc : AriaDoc), env.ariaDoc = some doc →
        ∃ d, (mainPipeline env).2 = some d
          ∧ d.extensions.dpub = (parseDpubAria env.dpubDoc).1
          ∧ d.extensions.graphics = (parseGraphicsAria env.graphicsDoc).1)
    ∧ ((mainPipeline envModules).2.map (fun d => d.roles.map Prod.fst) =
        some ["doc-example"]
      ∧ (mainPipeline envModules).2.map
          (fun d => (d.roles.lookup "doc-example").map AriaRole.description) =
        some (some "primary role")
      ∧ (mainPipeline envModules).2.map (fun d => d.extensions.dpub.lookup "doc-example") =
        some (some ⟨"doc-example", "dpub-aria", "dpub role"⟩)
      ∧ (mainPipeline envModules).2.map (fun d => d.extensions.graphics.lookup "doc-example") =
        some (some ⟨"doc-example", "graphics-aria", "graphics role"⟩)) := by
  refine ⟨?_, ?_, ?_⟩
  · intro env d₁ d₂ g₁ g₂
    obtain ⟨ad, ris, acc, ham, dp, gr, nw⟩ := env
    cases ad <;> rfl
  · intro env doc h
    obtain ⟨ad, ris, acc, ham, dp, gr, nw⟩ := env
    simp only at h
    subst h
    exact ⟨_, rfl, rfl, rfl⟩
  · exact ⟨by decide, by decide, by decide, by decide⟩

theorem modules_isolated_witness :
    ∃ d, (mainPipeline envModules).2 = some d
      ∧ d.extensions.dpub = (parseDpubAria envModules.dpubDoc).1
      ∧ d.extensions.graphics = (parseGraphicsAria envModules.graphicsDoc).1 :=
  modules_isolated.2.1 envModules
    { roleDivs := [⟨some "doc-example", "primary role", []⟩], attrDivs := [] } rfl

set_option maxHeartbeats 1600000 in
theorem applyRoleRow_accName_eq (role : AriaRole) (row : RowData) :
    (applyRoleRow role row).accessibleNameRequired =
      (if rowSetsAccName row = true then (lowerStr (cleanText row.cellText) == "true")
       else role.accessibleNameRequired) := by
  simp only [applyRoleRow]
  cases hc1 : strIncludes (lowerStr (cleanText row.header)) "superclass" with
  | true =>
    rw [if_pos rfl]
    have hr : rowSetsAccName row = false := by
      simp [rowSetsAccName, earlierThanAccName, roleHeaderOf, hc1]
    rw [hr, if_neg Bool.false_ne_true]
  | false =>
    rw [if_neg Bool.false_ne_true]
    cases hc2 : strIncludes (lowerStr (cleanText row.header)) "subclass" with
    | true =>
      rw [if_pos rfl]
      have hr : rowSetsAccName row = false := by
        simp [rowSetsAccName, earlierThanAccName, roleHeaderOf, hc2]
      rw [hr, if_neg Bool.false_ne_true]
    | false =>
      rw [if_neg Bool.false_ne_true]
      cases hc3 : strIncludes (lowerStr (cleanText row.header)) "related concept" with
      | true =>
        rw [if_pos rfl]
        have hr : rowSetsAccName row = false := by
          simp [rowSetsAccName, earlierThanAccName, roleHeaderOf, hc3]
        rw [hr, if_neg Bool.false_ne_true]
      | false =>
        rw [if_neg Bool.false_ne_true]
        cases hc4 : strIncludes (lowerStr (cleanText row.header)) "required context" with
        | true =>
          rw [if_pos rfl]
          have hr : rowSetsAccName row = false := by
            simp [rowSetsAccName, earlierThanAccName, roleHeaderOf, hc4]
          rw [hr, if_neg Bool.false_ne_true]
        | false =>
          rw [if_neg Bool.false_ne_true]
          cases hc5 : (strIncludes (lowerStr (cleanText row.header)) "required owned" || strIncludes (lowerStr (cleanText row.header)) "required children") with
          | true =>
            rw [if_pos rfl]
            have hr : rowSetsAccName row = false := by
              have h0 := hc5
              rw [Bool.or_eq_true] at h0
              rcases h0 with h | h <;> simp [rowSetsAccName, earlierThanAccName, roleHeaderOf, h]
            rw [hr, if_neg Bool.false_ne_true]
          | false =>
            rw [if_neg Bool.false_ne_true]
            obtain ⟨hc5a, hc5b⟩ := Bool.or_eq_false_iff.mp hc5
            cases hc6 : (strIncludes (lowerStr (cleanText row.header)) "required state" || strIncludes (lowerStr (cleanText row.header)) "required properties") with
            | true =>
              rw [if_pos rfl]
              have hr : rowSetsAccName row = false := by
                have h0 := hc6
                rw [Bool.or_eq_true] at h0
                rcases h0 with h | h <;> simp [rowSetsAccName, earlierThanAccName, roleHeaderOf, h]
              rw [hr, if_neg Bool.false_ne_true]
            | false =>
              rw [if_neg Bool.false_ne_true]
              obtain ⟨hc6a, hc6b⟩ := Bool.or_eq_false_iff.mp hc6
              cases hc7 : (strIncludes (lowerStr (cleanText row.header)) "supported state" || strIncludes (lowerStr (cleanText row.header)) "supported properties") with
              | true =>
                rw [if_pos rfl]
                have hr : rowSetsAccName row = false := by
                  have h0 := hc7
                  rw [Bool.or_eq_true] at h0
                  rcases h0 with h | h <;> simp [rowSetsAccName, earlierThanAccName, roleHeaderOf, h]
                rw [hr, if_neg Bool.false_ne_true]
              | false =>
                rw [if_neg Bool.false_ne_true]
                obtain ⟨hc7a, hc7b⟩ := Bool.or_eq_false_iff.mp hc7
                cases hc8 : strIncludes (lowerStr (cleanText row.header)) "inherited state" with
                | true =>
                  rw [if_pos rfl]
                  have hr : rowSetsAccName row = false := by
                    simp [rowSetsAccName, earlierThanAccName, roleHeaderOf, hc8]
                  rw [hr, if_neg Bool.false_ne_true]
                | false =>
                  rw [if_neg Bool.false_ne_true]
                  cases hc9 : (strIncludes (lowerStr (cleanText row.header)) "prohibited state" || strIncludes (lowerStr (cleanText row.header)) "prohibited properties") with
                  | true =>
                    rw [if_pos rfl]
                    have hr : rowSetsAccName row = false := by
                      have h0 := hc9
                      rw [Bool.or_eq_true] at h0
                      rcases h0 with h | h <;> simp [rowSetsAccName, earlierThanAccName, roleHeaderOf, h]
                    rw [hr, if_neg Bool.false_ne_true]
                  | false =>
                    rw [if_neg Bool.false_ne_true]
                    obtain ⟨hc9a, hc9b⟩ := Bool.or_eq_false_iff.mp hc9
                    cases hc10 : strIncludes (lowerStr (cleanText row.header)) "name from" with
                    | true =>
                      rw [if_pos rfl]
                      have hr : rowSetsAccName row = false := by
                        simp [rowSetsAccName, earlierThanAccName, roleHeaderOf, hc10]
                      rw [hr, if_neg Bool.false_ne_true]
                    | false =>
                      rw [if_neg Bool.false_ne_true]
                      cases hc11 : strIncludes (lowerStr (cleanText row.header)) "accessible name required" with
                      | true =>
                        rw [if_pos rfl]
                        have hr : rowSetsAccName row = true := by
                          simp [rowSetsAccName, earlierThanAccName, roleHeaderOf, hc1, hc2, hc3, hc4, hc5a, hc5b, hc6a, hc6b, hc7a, hc7b, hc8, hc9a, hc9b, hc10, hc11]
                        rw [hr, if_pos rfl]
                      | false =>
                        rw [if_neg Bool.false_ne_true]
                        have hr : rowSetsAccName row = false := by
                          simp [rowSetsAccName, earlierThanAccName, roleHeaderOf, hc11]
                        rw [hr, if_neg Bool.false_ne_true]
                        split_ifs <;> rfl

set_option maxHeartbeats 1600000 in
theorem applyRoleRow_childrenPres_eq (role : AriaRole) (row : RowData) :
    (applyRoleRow role row).childrenPresentational =
      (if rowSetsChildrenPres row = true then (lowerStr (cleanText row.cellText) == "true")
       else role.childrenPresentational) := by
  simp only [applyRoleRow]
  cases hc1 : strIncludes (lowerStr (cleanText row.header)) "superclass" with
  | true =>
    rw [if_pos rfl]
    have hr : rowSetsChildrenPres row = false := by
      simp [rowSetsChildrenPres, earlierThanChildrenPres, earlierThanAccName, roleHeaderOf, hc1]
    rw [hr, if_neg Bool.false_ne_true]
  | false =>
    rw [if_neg Bool.false_ne_true]
    cases hc2 : strIncludes (lowerStr (cleanText row.header)) "subclass" with
    | true =>
      rw [if_pos rfl]
      have hr : rowSetsChildrenPres row = false := by
        simp [rowSetsChildrenPres, earlierThanChildrenPres, earlierThanAccName, roleHeaderOf, hc2]
      rw [hr, if_neg Bool.false_ne_true]
    | false =>
      rw [if_neg Bool.false_ne_true]
      cases hc3 : strIncludes (lowerStr (cleanText row.header)) "related concept" with
      | true =>
        rw [if_pos rfl]
        have hr : rowSetsChildrenPres row = false := by
          simp [rowSetsChildrenPres, earlierThanChildrenPres, earlierThanAccName, roleHeaderOf, hc3]
        rw [hr, if_neg Bool.false_ne_true]
      | false =>
        rw [if_neg Bool.false_ne_true]
        cases hc4 : strIncludes (lowerStr (cleanText row.header)) "required context" with
        | true =>
          rw [if_pos rfl]
          have hr : rowSetsChildrenPres row = false := by
            simp [rowSetsChildrenPres, earlierThanChildrenPres, earlierThanAccName, roleHeaderOf, hc4]
          rw [hr, if_neg Bool.false_ne_true]
        | false =>
          rw [if_neg Bool.false_ne_true]
          cases hc5 : (strIncludes (lowerStr (cleanText row.header)) "required owned" || strIncludes (lowerStr (cleanText row.header)) "required children") with
          | true =>
            rw [if_pos rfl]
            have hr : rowSetsChildrenPres row = false := by
              have h0 := hc5
              rw [Bool.or_eq_true] at h0
              rcases h0 with h | h <;> simp [rowSetsChildrenPres, earlierThanChildrenPres, earlierThanAccName, roleHeaderOf, h]
            rw [hr, if_neg Bool.false_ne_true]
          | false =>
            rw [if_neg Bool.false_ne_true]
            obtain ⟨hc5a, hc5b⟩ := Bool.or_eq_false_iff.mp hc5
            cases hc6 : (strIncludes (lowerStr (cleanText row.header)) "required state" || strIncludes (lowerStr (cleanText row.header)) "required properties") with
            | true =>
              rw [if_pos rfl]
              have hr : rowSetsChildrenPres row = false := by
                have h0 := hc6
                rw [Bool.or_eq_true] at h0
                rcases h0 with h | h <;> simp [rowSetsChildrenPres, earlierThanChildrenPres, earlierThanAccName, roleHeaderOf, h]
              rw [hr, if_neg Bool.false_ne_true]
            | false =>
              rw [if_neg Bool.false_ne_true]
              obtain ⟨hc6a, hc6b⟩ := Bool.or_eq_false_iff.mp hc6
              cases hc7 : (strIncludes (lowerStr (cleanText row.header)) "supported state" || strIncludes (lowerStr (cleanText row.header)) "supported properties") with
              | true =>
                rw [if_pos rfl]
                have hr : rowSetsChildrenPres row = false := by
                  have h0 := hc7
                  rw [Bool.or_eq_true] at h0
                  rcases h0 with h | h <;> simp [rowSetsChildrenPres, earlierThanChildrenPres, earlierThanAccName, roleHeaderOf, h]
                rw [hr, if_neg Bool.false_ne_true]
              | false =>
                rw [if_neg Bool.false_ne_true]
                obtain ⟨hc7a, hc7b⟩ := Bool.or_eq_false_iff.mp hc7
                cases hc8 : strIncludes (lowerStr (cleanText row.header)) "inherited state" with
                | true =>
                  rw [if_pos rfl]
                  have hr : rowSetsChildrenPres row = false := by
                    simp [rowSetsChildrenPres, earlierThanChildrenPres, earlierThanAccName, roleHeaderOf, hc8]
                  rw [hr, if_neg Bool.false_ne_true]
                | false =>
                  rw [if_neg Bool.false_ne_true]
                  cases hc9 : (strIncludes (lowerStr (cleanText row.header)) "prohibited state" || strIncludes (lowerStr (cleanText row.header)) "prohibited properties") with
                  | true =>
                    rw [if_pos rfl]
                    have hr : rowSetsChildrenPres row = false := by
                      have h0 := hc9
                      rw [Bool.or_eq_true] at h0
                      rcases h0 with h | h <;> simp [rowSetsChildrenPres, earlierThanChildrenPres, earlierThanAccName, roleHeaderOf, h]
                    rw [hr, if_neg Bool.false_ne_true]
                  | false =>
                    rw [if_neg Bool.false_ne_true]
                    obtain ⟨hc9a, hc9b⟩ := Bool.or_eq_false_iff.mp hc9
                    cases hc10 : strIncludes (lowerStr (cleanText row.header)) "name from" with
                    | true =>
                      rw [if_pos rfl]
                      have hr : rowSetsChildrenPres row = false := by
                        simp [rowSetsChildrenPres, earlierThanChildrenPres, earlierThanAccName, roleHeaderOf, hc10]
                      rw [hr, if_neg Bool.false_ne_true]
                    | false =>
                      rw [if_neg Bool.false_ne_true]
                      cases hc11 : strIncludes (lowerStr (cleanText row.header)) "accessible name required" with
                      | true =>
                        rw [if_pos rfl]
                        have hr : rowSetsChildrenPres row = false := by
                          simp [rowSetsChildrenPres, earlierThanChildrenPres, earlierThanAccName, roleHeaderOf, hc11]
                        rw [hr, if_neg Bool.false_ne_true]
                      | false =>
                        rw [if_neg Bool.false_ne_true]
                        cases hc12 : (strIncludes (lowerStr (cleanText row.header)) "children are presentational" || strIncludes (lowerStr (cleanText row.header)) "children presentational") with
                        | true =>
                          rw [if_pos rfl]
                          have hr : rowSetsChildrenPres row = true := by
                            simp [rowSetsChildrenPres, earlierThanChildrenPres, earlierThanAccName, roleHeaderOf, hc1, hc2, hc3, hc4, hc5a, hc5b, hc6a, hc6b, hc7a, hc7b, hc8, hc9a, hc9b, hc10, hc11, hc12]
                          rw [hr, if_pos rfl]
                        | false =>
                          rw [if_neg Bool.false_ne_true]
                          have hr : rowSetsChildrenPres row = false := by
                            simp [rowSetsChildrenPres, earlierThanChildrenPres, earlierThanAccName, roleHeaderOf, hc12]
                          rw [hr, if_neg Bool.false_ne_true]
                          split_ifs <;> rfl

set_option maxHeartbeats 1600000 in
theorem applyRoleRow_isAbstract_eq (role : AriaRole) (row : RowData) :
    (applyRoleRow role row).isAbstract =
      (if rowSetsIsAbstract row = true then (lowerStr (cleanText row.cellText) == "true")
       else role.isAbstract) := by
  simp only [applyRoleRow]
  cases hc1 : strIncludes (lowerStr (cleanText row.header)) "superclass" with
  | true =>
    rw [if_pos rfl]
    have hr : rowSetsIsAbstract row = false := by
      simp [rowSetsIsAbstract, earlierThanIsAbstract, earlierThanChildrenPres, earlierThanAccName, roleHeaderOf, hc1]
    rw [hr, if_neg Bool.false_ne_true]
  | false =>
    rw [if_neg Bool.false_ne_true]
    cases hc2 : strIncludes (lowerStr (cleanText row.header)) "subclass" with
    | true =>
      rw [if_pos rfl]
      have hr : rowSetsIsAbstract row = false := by
        simp [rowSetsIsAbstract, earlierThanIsAbstract, earlierThanChildrenPres, earlierThanAccName, roleHeaderOf, hc2]
      rw [hr, if_neg Bool.false_ne_true]
    | false =>
      rw [if_neg Bool.false_ne_true]
      cases hc3 : strIncludes (lowerStr (cleanText row.header)) "related concept" with
      | true =>
        rw [if_pos rfl]
        have hr : rowSetsIsAbstract row = false := by
          simp [rowSetsIsAbstract, earlierThanIsAbstract, earlierThanChildrenPres, earlierThanAccName, roleHeaderOf, hc3]
        rw [hr, if_neg Bool.false_ne_true]
      | false =>
        rw [if_neg Bool.false_ne_true]
        cases hc4 : strIncludes (lowerStr (cleanText row.header)) "required context" with
        | true =>
          rw [if_pos rfl]
          have hr : rowSetsIsAbstract row = false := by
            simp [rowSetsIsAbstract, earlierThanIsAbstract, earlierThanChildrenPres, earlierThanAccName, roleHeaderOf, hc4]
          rw [hr, if_neg Bool.false_ne_true]
        | false =>
          rw [if_neg Bool.false_ne_true]
          cases hc5 : (strIncludes (lowerStr (cleanText row.header)) "required owned" || strIncludes (lowerStr (cleanText row.header)) "required children") with
          | true =>
            rw [if_pos rfl]
            have hr : rowSetsIsAbstract row = false := by
              have h0 := hc5
              rw [Bool.or_eq_true] at h0
              rcases h0 with h | h <;> simp [rowSetsIsAbstract, earlierThanIsAbstract, earlierThanChildrenPres, earlierThanAccName, roleHeaderOf, h]
            rw [hr, if_neg Bool.false_ne_true]
          | false =>
            rw [if_neg Bool.false_ne_true]
            obtain ⟨hc5a, hc5b⟩ := Bool.or_eq_false_iff.mp hc5
            cases hc6 : (strIncludes (lowerStr (cleanText row.header)) "required state" || strIncludes (lowerStr (cleanText row.header)) "required properties") with
            | true =>
              rw [if_pos rfl]
              have hr : rowSetsIsAbstract row = false := by
                have h0 := hc6
                rw [Bool.or_eq_true] at h0
                rcases h0 with h | h <;> simp [rowSetsIsAbstract, earlierThanIsAbstract, earlierThanChildrenPres, earlierThanAccName, roleHeaderOf, h]
              rw [hr, if_neg Bool.false_ne_true]
            | false =>
              rw [if_neg Bool.false_ne_true]
              obtain ⟨hc6a, hc6b⟩ := Bool.or_eq_false_iff.mp hc6
              cases hc7 : (strIncludes (lowerStr (cleanText row.header)) "supported state" || strIncludes (lowerStr (cleanText row.header)) "supported properties") with
              | true =>
                rw [if_pos rfl]
                have hr : rowSetsIsAbstract row = false := by
                  have h0 := hc7
                  rw [Bool.or_eq_true] at h0
                  rcases h0 with h | h <;> simp [rowSetsIsAbstract, earlierThanIsAbstract, earlierThanChildrenPres, earlierThanAccName, roleHeaderOf, h]
                rw [hr, if_neg Bool.false_ne_true]
              | false =>
                rw [if_neg Bool.false_ne_true]
                obtain ⟨hc7a, hc7b⟩ := Bool.or_eq_false_iff.mp hc7
                cases hc8 : strIncludes (lowerStr (cleanText row.header)) "inherited state" with
                | true =>
                  rw [if_pos rfl]
                  have hr : rowSetsIsAbstract row = false := by
                    simp [rowSetsIsAbstract, earlierThanIsAbstract, earlierThanChildrenPres, earlierThanAccName, roleHeaderOf, hc8]
                  rw [hr, if_neg Bool.false_ne_true]
                | false =>
                  rw [if_neg Bool.false_ne_true]
                  cases hc9 : (strIncludes (lowerStr (cleanText row.header)) "prohibited state" || strIncludes (lowerStr (cleanText row.header)) "prohibited properties") with
                  | true =>
                    rw [if_pos rfl]
                    have hr : rowSetsIsAbstract row = false := by
                      have h0 := hc9
                      rw [Bool.or_eq_true] at h0
                      rcases h0 with h | h <;> simp [rowSetsIsAbstract, earlierThanIsAbstract, earlierThanChildrenPres, earlierThanAccName, roleHeaderOf, h]
                    rw [hr, if_neg Bool.false_ne_true]
                  | false =>
                    rw [if_neg Bool.false_ne_true]
                    obtain ⟨hc9a, hc9b⟩ := Bool.or_eq_false_iff.mp hc9
                    cases hc10 : strIncludes (lowerStr (cleanText row.header)) "name from" with
                    | true =>
                      rw [if_pos rfl]
                      have hr : rowSetsIsAbstract row = false := by
                        simp [rowSetsIsAbstract, earlierThanIsAbstract, earlierThanChildrenPres, earlierThanAccName, roleHeaderOf, hc10]
                      rw [hr, if_neg Bool.false_ne_true]
                    | false =>
                      rw [if_neg Bool.false_ne_true]
                      cases hc11 : strIncludes (lowerStr (cleanText row.header)) "accessible name required" with
                      | true =>
                        rw [if_pos rfl]
                        have hr : rowSetsIsAbstract row = false := by
                          simp [rowSetsIsAbstract, earlierThanIsAbstract, earlierThanChildrenPres, earlierThanAccName, roleHeaderOf, hc11]
                        rw [hr, if_neg Bool.false_ne_true]
                      | false =>
                        rw [if_neg Bool.false_ne_true]
                        cases hc12 : (strIncludes (lowerStr (cleanText row.header)) "children are presentational" || strIncludes (lowerStr (cleanText row.header)) "children presentational") with
                        | true =>
                          rw [if_pos rfl]
                          have hr : rowSetsIsAbstract row = false := by
                            have h0 := hc12
                            rw [Bool.or_eq_true] at h0
                            rcases h0 with h | h <;> simp [rowSetsIsAbstract, earlierThanIsAbstract, earlierThanChildrenPres, earlierThanAccName, roleHeaderOf, h]
                          rw [hr, if_neg Bool.false_ne_true]
                        | false =>
                          rw [if_neg Bool.false_ne_true]
                          obtain ⟨hc12a, hc12b⟩ := Bool.or_eq_false_iff.mp hc12
                          cases hc13 : strIncludes (lowerStr (cleanText row.header)) "is abstract" with
                          | true =>
                            rw [if_pos rfl]
                            have hr : rowSetsIsAbstract row = true := by
                              simp [rowSetsIsAbstract, earlierThanIsAbstract, earlierThanChildrenPres, earlierThanAccName, roleHeaderOf, hc1, hc2, hc3, hc4, hc5a, hc5b, hc6a, hc6b, hc7a, hc7b, hc8, hc9a, hc9b, hc10, hc11, hc12a, hc12b, hc13]
                            rw [hr, if_pos rfl]
                          | false =>
                            rw [if_neg Bool.false_ne_true]
                            have hr : rowSetsIsAbstract row = false := by
                              simp [rowSetsIsAbstract, earlierThanIsAbstract, earlierThanChildrenPres, earlierThanAccName, roleHeaderOf, hc13]
                            rw [hr, if_neg Bool.false_ne_true]
                            split_ifs <;> rfl

theorem parseRole_fold_accName (rows : List RowData)
    (h : rows.all (fun row => !rowSetsAccName row) = true) :
    ∀ init : AriaRole,
      (rows.foldl applyRoleRow init).accessibleNameRequired =
        init.accessibleNameRequired := by
  induction rows with
  | nil => intro init; rfl
  | cons row rest ih =>
    rw [List.all_cons, Bool.and_eq_true] at h
    intro init
    rw [List.foldl_cons, ih h.2, applyRoleRow_accName_eq,
      if_neg (by rw [Bool.not_eq_true'] at h; rw [h.1]; exact Bool.false_ne_true)]

theorem parseRole_fold_childrenPres (rows : List RowData)
    (h : rows.all (fun row => !rowSetsChildrenPres row) = true) :
    ∀ init : AriaRole,
      (rows.foldl applyRoleRow init).childrenPresentational =
        init.childrenPresentational := by
  induction rows with
  | nil => intro init; rfl
  | cons row rest ih =>
    rw [List.all_cons, Bool.and_eq_true] at h
    intro init
    rw [List.foldl_cons, ih h.2, applyRoleRow_childrenPres_eq,
      if_neg (by rw [Bool.not_eq_true'] at h; rw [h.1]; exact Bool.false_ne_true)]

theorem parseRole_fold_isAbstract (rows : List RowData)
    (h : rows.all (fun row => !rowSetsIsAbstract row) = true) :
    ∀ init : AriaRole,
      (rows.foldl applyRoleRow init).isAbstract = init.isAbstract := by
  induction rows with
  | nil => intro init; rfl
  | cons row rest ih =>
    rw [List.all_cons, Bool.and_eq_true] at h
    intro init
    rw [List.foldl_cons, ih h.2, applyRoleRow_isAbstract_eq,
      if_neg (by rw [Bool.not_eq_true'] at h; rw [h.1]; exact Bool.false_ne_true)]

/-- C9: each of the three boolean role fields is set by its
characteristics-table row (one whose header reaches that branch of the
ordered chain) to `true` exactly when the cleaned cell text equals the
token `true` case-insensitively; any other cell content gives `false`,
and with no such row the field keeps its `false` default — extraction is
a total function and never fails. -/
theorem roleBooleanFields :
    (∀ (role : AriaRole) (row : RowData), rowSetsAccName row = true →
      (applyRoleRow role row).accessibleNameRequired =
        (lowerStr (cleanText row.cellText) == "true"))
    ∧ (∀ (role : AriaRole) (row : RowData), rowSetsChildrenPres row = true →
      (applyRoleRow role row).childrenPresentational =
        (lowerStr (cleanText row.cellText) == "true"))
    ∧ (∀ (role : AriaRole) (row : RowData), rowSetsIsAbstract row = true →
      (applyRoleRow role row).isAbstract =
        (lowerStr (cleanText row.cellText) == "true"))
    ∧ (∀ (id : String) (d : RoleDiv),
      d.rows.all (fun row => !rowSetsAccName row) = true →
      (parseRole id d).accessibleNameRequired = false)
    ∧ (∀ (id : String) (d : RoleDiv),
      d.rows.all (fun row => !rowSetsChildrenPres row) = true →
      (parseRole id d).childrenPresentational = false)
    ∧ (∀ (id : String) (d : RoleDiv),
      d.rows.all (fun row => !rowSetsIsAbstract row) = true →
      (parseRole id d).isAbstract = false) := by
  refine ⟨?_, ?_, ?_, ?_, ?_, ?_⟩
  · intro role row h
    rw [applyRoleRow_accName_eq, if_pos h]
  · intro role row h
    rw [applyRoleRow_childrenPres_eq, if_pos h]
  · intro role row h
    rw [applyRoleRow_isAbstract_eq, if_pos h]
  · intro id d h
    exact parseRole_fold_accName d.rows h _
  · intro id d h
    exact parseRole_fold_childrenPres d.rows h _
  · intro id d h
    exact parseRole_fold_isAbstract d.rows h _

theorem roleBooleanFields_witness :
    (applyRoleRow { name := "r", description := "" } rowAccNameTrue).accessibleNameRequired =
      (lowerStr (cleanText "True") == "true")
    ∧ (applyRoleRow { name := "r", description := "" } rowChildrenPresTrue).childrenPresentational =
      (lowerStr (cleanText "TRUE") == "true")
    ∧ (applyRoleRow { name := "r", description := "" } rowIsAbstractTrue).isAbstract =
      (lowerStr (cleanText "true") == "true")
    ∧ (applyRoleRow { name := "r", description := "" } rowIsAbstractOther).isAbstract =
      (lowerStr (cleanText "sometimes true") == "true")
    ∧ (parseRole "plain" roleDivNoBool).isAbstract = false :=
  ⟨roleBooleanFields.1 _ rowAccNameTrue (by decide),
   roleBooleanFields.2.1 _ rowChildrenPresTrue (by decide),
   roleBooleanFields.2.2.1 _ rowIsAbstractTrue (by decide),
   roleBooleanFields.2.2.1 _ rowIsAbstractOther (by decide),
   roleBooleanFields.2.2.2.2.2 "plain" roleDivNoBool (by decide)⟩
